import Mathlib

set_option linter.unusedVariables false
set_option linter.unnecessarySimpa false

/-!
Verification development for the ASP-classic-to-ASP.NET-Core migration backend
(`backend/app.py`).  The program is a FastAPI application exposing a single
endpoint `/process-github`.  It clones a git repository, walks the clone,
classifies each source file through an external LLM service, asks the LLM to
generate a replacement project as a JSON mapping from file path to content,
materialises that mapping to a temporary directory, zips the directory and
streams the zip back.

Modelling conventions:
* machine strings are Lean `String`s; all string algorithms needed by the
  code (`str.split`, `str.replace`, `str.lower`, `str.endswith`, the regex
  search, JSON parsing) are re-implemented on `List Char` so that every
  definition evaluates by kernel reduction;
* filesystem paths are lists of path components (the leading `/` of an
  absolute path is implicit); the filesystem is a finite association list
  from resolved component lists to file data;
* the external LLM service is an oracle supplied by the environment: the
  classification response is a function of the classified file path and
  content, and the generation response is a single string per request.  The
  natural-language prompt texts built by the code are not modelled — no
  observable behaviour of the program depends on the prompt characters,
  only on the oracle responses;
* Python exceptions are modelled with an explicit `Except`/error type; the
  exact CPython exception message texts are not reproduced, only the fact
  that the handler reports `str(e)` for the caught exception `e`.
-/

/-! ### Character and string utilities (models of the Python str methods used) -/

/-- ASCII lower-casing of a character, modelling `str.lower` on the ASCII
range (the file extensions compared by the code are ASCII). -/
def lowerChar (c : Char) : Char :=
  if 'A' ≤ c ∧ c ≤ 'Z' then Char.ofNat (c.toNat + 32) else c

/-- Model of `str.lower` (ASCII range). -/
def lowerStr (s : String) : String := String.mk (s.data.map lowerChar)

/-- Model of `str.endswith`. -/
def endsWithStr (s suffix : String) : Bool := suffix.data.isSuffixOf s.data

/-- Splitting a character list at `/`, auxiliary for `splitPath`. -/
def splitOnSlash : List Char → List (List Char)
  | [] => [[]]
  | c :: rest =>
    match splitOnSlash rest with
    | [] => [[]]
    | g :: gs => if c = '/' then [] :: g :: gs else (c :: g) :: gs

/-- Model of the Python `str.split("/")` (as used on the GitHub URL), and of
decomposing a POSIX path string into components. -/
def splitPath (s : String) : List String := (splitOnSlash s.data).map String.mk

/-- Joining path components with `/`; inverse of `splitPath` on component
lists that contain no slash. -/
def joinPath : List String → String
  | [] => ""
  | [x] => x
  | x :: xs => x ++ "/" ++ joinPath xs

/-- True when the string starts with a slash, i.e. denotes an absolute POSIX
path (`os.path.join` discards the left operand for such a right operand). -/
def startsWithSlash (s : String) : Bool :=
  match s.data with
  | c :: _ => c = '/'
  | [] => false

/-- Replacement of every non-overlapping occurrence of `pat` (non-empty) by
`rep`, left to right, with fuel; auxiliary for `py_str_replace`. -/
def replaceAllChars (pat rep : List Char) : Nat → List Char → List Char
  | 0, cs => cs
  | Nat.succ fuel, cs =>
    match cs with
    | [] => []
    | c :: rest =>
      if pat ≠ [] ∧ pat.isPrefixOf cs then rep ++ replaceAllChars pat rep fuel (cs.drop pat.length)
      else c :: replaceAllChars pat rep fuel rest

/-- Model of the Python `str.replace` for a non-empty pattern (the code only
uses pattern `".git"`). -/
def py_str_replace (s pat rep : String) : String :=
  String.mk (replaceAllChars pat.data rep.data s.data.length s.data)

/-! ### JSON values

Model of the Python objects produced by `json.loads`.  Numbers keep their
source lexeme: the program never computes with numeric values, it only moves
them around, so the lexeme is a faithful representation.  Object fields are
kept deduplicated exactly as a Python dict built key by key: a repeated key
overwrites the value in place. -/

inductive JValue where
  | jnull
  | jbool (b : Bool)
  | jnum (lexeme : String)
  | jstr (s : String)
  | jarr (elems : List JValue)
  | jobj (fields : List (String × JValue))

/-- Dictionary lookup, modelling `dict.get(k)` returning `None` when the key
is absent.  Fields produced by the parser are deduplicated, so taking the
first match agrees with the Python dict. -/
def jlookup (fields : List (String × JValue)) (k : String) : Option JValue :=
  (fields.find? (fun kv => kv.1 == k)).map (fun kv => kv.2)

/-- Dictionary lookup with a default, modelling `dict.get(k, default)`. -/
def jgetD (fields : List (String × JValue)) (k : String) (d : JValue) : JValue :=
  (jlookup fields k).getD d

/-- Insertion into a dict under construction: a repeated key overwrites the
stored value in place, as in CPython. -/
def insertKey (fields : List (String × JValue)) (k : String) (v : JValue) :
    List (String × JValue) :=
  if fields.any (fun kv => kv.1 == k) then
    fields.map (fun kv => if kv.1 == k then (kv.1, v) else kv)
  else fields ++ [(k, v)]

/-! ### A model of `json.loads`

Recursive-descent parser for the JSON accepted by the Python `json.loads`
with default arguments: strict strings (unescaped control characters
rejected), the extra constants `NaN`, `Infinity` and `-Infinity`, arbitrary
top-level values, and JSON whitespace between tokens.  Surrogate-pair
escapes are combined; a lone surrogate escape (representable in a Python
`str` but not in a Lean `Char`) is mapped to a placeholder character — no
claim depends on such strings. -/

/-- JSON inter-token whitespace. -/
def jsonWs (c : Char) : Bool := c = ' ' || c = '\t' || c = '\n' || c = '\r'

/-- Drop leading JSON whitespace. -/
def skipWsJ (cs : List Char) : List Char := cs.dropWhile jsonWs

/-- Decimal digit test. -/
def isDigitC (c : Char) : Bool := '0' ≤ c && c ≤ '9'

/-- Value of a hexadecimal digit. -/
def hexVal (c : Char) : Option Nat :=
  if '0' ≤ c && c ≤ '9' then some (c.toNat - 48)
  else if 'a' ≤ c && c ≤ 'f' then some (c.toNat - 87)
  else if 'A' ≤ c && c ≤ 'F' then some (c.toNat - 55)
  else none

/-- Four hexadecimal digits of a `\\u` escape. -/
def parseHex4 : List Char → Option (Nat × List Char)
  | a :: b :: c :: d :: rest =>
    match hexVal a, hexVal b, hexVal c, hexVal d with
    | some x, some y, some z, some w => some (x * 4096 + y * 256 + z * 16 + w, rest)
    | _, _, _, _ => none
  | _ => none

/-- JSON string body parser (the opening quote is already consumed); returns
the decoded characters and the remainder after the closing quote. -/
def parseJStr : Nat → List Char → List Char → Option (List Char × List Char)
  | 0, _, _ => none
  | Nat.succ fuel, acc, cs =>
    match cs with
    | [] => none
    | c :: rest =>
      if c = '"' then some (acc.reverse, rest)
      else if c = '\\' then
        match rest with
        | [] => none
        | e :: rest2 =>
          if e = '"' then parseJStr fuel ('"' :: acc) rest2
          else if e = '\\' then parseJStr fuel ('\\' :: acc) rest2
          else if e = '/' then parseJStr fuel ('/' :: acc) rest2
          else if e = 'b' then parseJStr fuel (Char.ofNat 8 :: acc) rest2
          else if e = 'f' then parseJStr fuel (Char.ofNat 12 :: acc) rest2
          else if e = 'n' then parseJStr fuel ('\n' :: acc) rest2
          else if e = 'r' then parseJStr fuel ('\r' :: acc) rest2
          else if e = 't' then parseJStr fuel ('\t' :: acc) rest2
          else if e = 'u' then
            match parseHex4 rest2 with
            | none => none
            | some (n, rest3) =>
              if 55296 ≤ n && n < 56320 then
                match rest3 with
                | '\\' :: 'u' :: rest4 =>
                  match parseHex4 rest4 with
                  | none => none
                  | some (m, rest5) =>
                    if 56320 ≤ m && m < 57344 then
                      parseJStr fuel
                        (Char.ofNat (65536 + (n - 55296) * 1024 + (m - 56320)) :: acc) rest5
                    else parseJStr fuel (Char.ofNat m :: Char.ofNat n :: acc) rest5
                | _ => parseJStr fuel (Char.ofNat n :: acc) rest3
              else parseJStr fuel (Char.ofNat n :: acc) rest3
          else none
      else if c.toNat < 32 then none
      else parseJStr fuel (c :: acc) rest

/-- Integer part of a JSON number: `0`, or a nonzero digit followed by
digits. -/
def parseIntPart : List Char → Option (List Char × List Char)
  | [] => none
  | c :: rest =>
    if c = '0' then some ([c], rest)
    else if isDigitC c then
      some (c :: rest.takeWhile isDigitC, rest.dropWhile isDigitC)
    else none

/-- Optional fractional part of a JSON number. -/
def parseFracPart (cs : List Char) : Option (List Char × List Char) :=
  match cs with
  | '.' :: rest =>
    let ds := rest.takeWhile isDigitC
    if ds.isEmpty then none else some ('.' :: ds, rest.dropWhile isDigitC)
  | _ => some ([], cs)

/-- Optional exponent part of a JSON number. -/
def parseExpPart (cs : List Char) : Option (List Char × List Char) :=
  match cs with
  | [] => some ([], [])
  | e :: rest =>
    if e = 'e' || e = 'E' then
      match rest with
      | [] => none
      | s :: rest2 =>
        if s = '+' || s = '-' then
          let ds := rest2.takeWhile isDigitC
          if ds.isEmpty then none
          else some (e :: s :: ds, rest2.dropWhile isDigitC)
        else
          let ds := rest.takeWhile isDigitC
          if ds.isEmpty then none
          else some (e :: ds, rest.dropWhile isDigitC)
    else some ([], e :: rest)

/-- JSON number parser; returns the lexeme and the remainder. -/
def parseNumber (cs : List Char) : Option (String × List Char) :=
  let sign : List Char × List Char :=
    match cs with
    | '-' :: rest => (['-'], rest)
    | _ => ([], cs)
  match parseIntPart sign.2 with
  | none => none
  | some (ip, cs2) =>
    match parseFracPart cs2 with
    | none => none
    | some (fp, cs3) =>
      match parseExpPart cs3 with
      | none => none
      | some (ep, cs4) => some (String.mk (sign.1 ++ ip ++ fp ++ ep), cs4)

mutual

/-- JSON value parser (fuel-indexed). -/
def parseValue : Nat → List Char → Option (JValue × List Char)
  | 0, _ => none
  | Nat.succ fuel, cs =>
    match skipWsJ cs with
    | [] => none
    | c :: rest =>
      if c = '"' then
        match parseJStr (rest.length + 1) [] rest with
        | some (content, rest2) => some (.jstr (String.mk content), rest2)
        | none => none
      else if c = '{' then parseObj fuel rest
      else if c = '[' then parseArr fuel rest
      else if c = 't' then
        if ['r', 'u', 'e'].isPrefixOf rest then some (.jbool true, rest.drop 3) else none
      else if c = 'f' then
        if ['a', 'l', 's', 'e'].isPrefixOf rest then some (.jbool false, rest.drop 4) else none
      else if c = 'n' then
        if ['u', 'l', 'l'].isPrefixOf rest then some (.jnull, rest.drop 3) else none
      else if c = 'N' then
        if ['a', 'N'].isPrefixOf rest then some (.jnum "NaN", rest.drop 2) else none
      else if c = 'I' then
        if ['n', 'f', 'i', 'n', 'i', 't', 'y'].isPrefixOf rest then
          some (.jnum "Infinity", rest.drop 7)
        else none
      else if c = '-' && rest.headD ' ' = 'I' then
        if ['I', 'n', 'f', 'i', 'n', 'i', 't', 'y'].isPrefixOf rest then
          some (.jnum "-Infinity", rest.drop 8)
        else none
      else
        match parseNumber (c :: rest) with
        | some (lex, rest2) => some (.jnum lex, rest2)
        | none => none

/-- Object parser, entered right after the opening brace. -/
def parseObj : Nat → List Char → Option (JValue × List Char)
  | 0, _ => none
  | Nat.succ fuel, cs =>
    match skipWsJ cs with
    | '}' :: rest => some (.jobj [], rest)
    | _ => parseMembers fuel [] cs

/-- Object member list parser (at least one member expected). -/
def parseMembers : Nat → List (String × JValue) → List Char → Option (JValue × List Char)
  | 0, _, _ => none
  | Nat.succ fuel, acc, cs =>
    match skipWsJ cs with
    | '"' :: rest =>
      match parseJStr (rest.length + 1) [] rest with
      | none => none
      | some (key, rest2) =>
        match skipWsJ rest2 with
        | ':' :: rest3 =>
          match parseValue fuel rest3 with
          | none => none
          | some (v, rest4) =>
            match skipWsJ rest4 with
            | ',' :: rest5 => parseMembers fuel (insertKey acc (String.mk key) v) rest5
            | '}' :: rest5 => some (.jobj (insertKey acc (String.mk key) v), rest5)
            | _ => none
        | _ => none
    | _ => none

/-- Array parser, entered right after the opening bracket. -/
def parseArr : Nat → List Char → Option (JValue × List Char)
  | 0, _ => none
  | Nat.succ fuel, cs =>
    match skipWsJ cs with
    | ']' :: rest => some (.jarr [], rest)
    | _ => parseElems fuel [] cs

/-- Array element list parser (at least one element expected). -/
def parseElems : Nat → List JValue → List Char → Option (JValue × List Char)
  | 0, _, _ => none
  | Nat.succ fuel, acc, cs =>
    match parseValue fuel cs with
    | none => none
    | some (v, rest) =>
      match skipWsJ rest with
      | ',' :: rest2 => parseElems fuel (acc ++ [v]) rest2
      | ']' :: rest2 => some (.jarr (acc ++ [v]), rest2)
      | _ => none

end

/-- Model of `json.loads`: parse one JSON document, allowing surrounding
whitespace, rejecting trailing content; `none` models `json.JSONDecodeError`. -/
def json_loads (s : String) : Option JValue :=
  match parseValue (4 * s.data.length + 16) s.data with
  | some (v, rest) => if (skipWsJ rest).isEmpty then some v else none
  | none => none

/-! ### The fenced-block regex

Model of the `re.search` call with the DOTALL flag whose raw pattern is:
fence, the word json, optional whitespace, a capture group of an opening
brace followed non-greedily by anything up to a closing brace, optional
whitespace, and a closing fence
from `classify_file_with_openai` and `generate_mvc_with_openai`, where
`<fence>` is three backquote characters: the leftmost occurrence of the
fence-json opener after which optional whitespace is followed by an opening
brace wins, and the non-greedy group ends at the first closing brace that is
followed by optional whitespace and a closing fence.  The Python `\s` class
is modelled on its ASCII range. -/

/-- Backquote character (written by code point to keep source plain). -/
def backquote : Char := Char.ofNat 96

/-- The literal fence opener followed by `json`. -/
def fenceJson : List Char := [backquote, backquote, backquote, 'j', 's', 'o', 'n']

/-- A closing fence. -/
def fence3 : List Char := [backquote, backquote, backquote]

/-- ASCII range of the Python regex class `\s`. -/
def pyWsChar (c : Char) : Bool :=
  c = ' ' || c = '\t' || c = '\n' || c = '\r' || c = Char.ofNat 11 || c = Char.ofNat 12

/-- True when optional whitespace followed by a closing fence starts here. -/
def closeFenceAfter (cs : List Char) : Bool :=
  fence3.isPrefixOf (cs.dropWhile pyWsChar)

/-- Scan for the first closing brace followed by a closing fence (the
non-greedy group body); `acc` holds the group characters read so far. -/
def scanGroup : List Char → List Char → Option (List Char)
  | _, [] => none
  | acc, c :: rest =>
    if c = '}' && closeFenceAfter rest then some (acc ++ [c])
    else scanGroup (acc ++ [c]) rest

/-- Attempt a match directly after a fence-json opener. -/
def tryFenceAt (cs : List Char) : Option (List Char) :=
  match cs.dropWhile pyWsChar with
  | c :: rest => if c = '{' then scanGroup [c] rest else none
  | [] => none

/-- Leftmost-match search for the fenced JSON group. -/
def searchFencedAux : List Char → Option (List Char)
  | [] => none
  | c :: rest =>
    if fenceJson.isPrefixOf (c :: rest) then
      match tryFenceAt ((c :: rest).drop 7) with
      | some g => some g
      | none => searchFencedAux rest
    else searchFencedAux rest

/-- Model of the `re.search` call: the first capture group of the fenced
JSON block, when the pattern matches. -/
def searchFencedJson (s : String) : Option String :=
  (searchFencedAux s.data).map String.mk

/-! ### Parsing an LLM response (shared by classification and generation)

Lines 138-142 and 441-446 of `app.py` run the same pipeline: extract a
fenced JSON block and `json.loads` it, else `json.loads` the raw response;
a `JSONDecodeError` anywhere is the failure case. -/

/-- The response-parsing pipeline shared by `classify_file_with_openai` and
`generate_mvc_with_openai`; `none` models the caught `JSONDecodeError`. -/
def extract_llm_json (response : String) : Option JValue :=
  match searchFencedJson response with
  | some g => json_loads g
  | none => json_loads response

/-- The fallback classification record built in the `except` branch of
`classify_file_with_openai` (the CPython text of the decode error embedded
in the `reason` field is not reproduced; no claim concerns that field). -/
def default_classification (file_path : String) : JValue :=
  .jobj [("file_path", .jstr file_path),
         ("classification", .jstr "unknown"),
         ("reason", .jstr "JSON parsing error"),
         ("category", .jstr "Other"),
         ("conversion_type", .jstr "Unknown")]

/-- Model of `classify_file_with_openai`: the prompt built from `file_path`
and `content` is sent to the LLM; `response` is the oracle answer to it.
The parsed response is returned, or the default record on a decode error.
The `content` argument only feeds the prompt, which is not modelled. -/
def classify_file_with_openai (file_path content response : String) : JValue :=
  match extract_llm_json response with
  | some v => v
  | none => default_classification file_path

example : json_loads "\x7b\"a\": 1\x7d" = some (.jobj [("a", .jnum "1")]) := rfl

example : json_loads "nope" = none := rfl

example : extract_llm_json "nope" = none := rfl

/-! ### Python string rendering of JSON-decoded values

Models of `json.dumps(value, indent=4)` and `str(value)` as applied by the
endpoint to non-string values of the generated mapping (lines 528-533 of
`app.py`).  The integer lexeme round-trips exactly; the CPython float `repr`
normalisation and the quote-escaping of `repr` on strings are approximated
(no claim constrains the rendered text of non-string values). -/

/-- Hexadecimal digit (lowercase) for escape sequences. -/
def hexDigitChar (n : Nat) : Char :=
  if n < 10 then Char.ofNat (48 + n) else Char.ofNat (87 + n)

/-- A JSON `\u` escape for a code unit. -/
def uEscape (n : Nat) : List Char :=
  ['\\', 'u', hexDigitChar (n / 4096 % 16), hexDigitChar (n / 256 % 16),
   hexDigitChar (n / 16 % 16), hexDigitChar (n % 16)]

/-- Escaping of one character as by `json.dumps` (`ensure_ascii=True`). -/
def jsonEscapeChar (c : Char) : List Char :=
  if c = '"' then ['\\', '"']
  else if c = '\\' then ['\\', '\\']
  else if c = '\n' then ['\\', 'n']
  else if c = '\t' then ['\\', 't']
  else if c = '\r' then ['\\', 'r']
  else if c = Char.ofNat 8 then ['\\', 'b']
  else if c = Char.ofNat 12 then ['\\', 'f']
  else if c.toNat < 32 then uEscape c.toNat
  else if c.toNat < 127 then [c]
  else if c.toNat < 65536 then uEscape c.toNat
  else uEscape (55296 + (c.toNat - 65536) / 1024) ++ uEscape (56320 + (c.toNat - 65536) % 1024)

/-- String literal rendering as by `json.dumps`. -/
def json_dumps_string (s : String) : String :=
  String.mk ('"' :: (s.data.map jsonEscapeChar).flatten ++ ['"'])

/-- Indentation prefix used by `json.dumps(..., indent=4)`. -/
def indentSpaces (lvl : Nat) : String := String.mk (List.replicate (4 * lvl) ' ')

mutual

/-- Model of `json.dumps(v, indent=4)` at nesting level `lvl`. -/
def json_dumps4 : Nat → JValue → String
  | _, .jnull => "null"
  | _, .jbool true => "true"
  | _, .jbool false => "false"
  | _, .jnum lex => lex
  | _, .jstr s => json_dumps_string s
  | _, .jarr [] => "[]"
  | lvl, .jarr (x :: xs) =>
    "[\n" ++ json_dumps4_items (lvl + 1) (x :: xs) ++ "\n" ++ indentSpaces lvl ++ "]"
  | _, .jobj [] => "\x7b\x7d"
  | lvl, .jobj (f :: fs) =>
    "\x7b\n" ++ json_dumps4_fields (lvl + 1) (f :: fs) ++ "\n" ++ indentSpaces lvl ++ "\x7d"

/-- Array items rendered for `json.dumps(..., indent=4)`. -/
def json_dumps4_items : Nat → List JValue → String
  | _, [] => ""
  | lvl, [x] => indentSpaces lvl ++ json_dumps4 lvl x
  | lvl, x :: y :: xs =>
    indentSpaces lvl ++ json_dumps4 lvl x ++ ",\n" ++ json_dumps4_items lvl (y :: xs)

/-- Object fields rendered for `json.dumps(..., indent=4)`. -/
def json_dumps4_fields : Nat → List (String × JValue) → String
  | _, [] => ""
  | lvl, [(k, v)] => indentSpaces lvl ++ json_dumps_string k ++ ": " ++ json_dumps4 lvl v
  | lvl, (k, v) :: f :: fs =>
    indentSpaces lvl ++ json_dumps_string k ++ ": " ++ json_dumps4 lvl v ++ ",\n" ++
      json_dumps4_fields lvl (f :: fs)

end

/-- A single-quote character (written by code point to keep source plain). -/
def singleQuote : String := String.mk [Char.ofNat 39]

mutual

/-- Approximate model of the Python `repr` on JSON-decoded values. -/
def py_repr : JValue → String
  | .jnull => "None"
  | .jbool true => "True"
  | .jbool false => "False"
  | .jnum lex => lex
  | .jstr s => singleQuote ++ s ++ singleQuote
  | .jarr l => "[" ++ py_repr_items l ++ "]"
  | .jobj l => "\x7b" ++ py_repr_fields l ++ "\x7d"

/-- List items under `repr`. -/
def py_repr_items : List JValue → String
  | [] => ""
  | [x] => py_repr x
  | x :: y :: xs => py_repr x ++ ", " ++ py_repr_items (y :: xs)

/-- Dict fields under `repr`. -/
def py_repr_fields : List (String × JValue) → String
  | [] => ""
  | [(k, v)] => singleQuote ++ k ++ singleQuote ++ ": " ++ py_repr v
  | (k, v) :: f :: fs =>
    singleQuote ++ k ++ singleQuote ++ ": " ++ py_repr v ++ ", " ++ py_repr_fields (f :: fs)

end

/-- Model of the Python `str` on JSON-decoded values. -/
def py_str (v : JValue) : String :=
  match v with
  | .jstr s => s
  | v => py_repr v

/-- Content written for one value of the generated mapping, per lines
528-536 of `app.py`: a dict is serialised with `json.dumps(..., indent=4)`,
a string is written as is, anything else goes through `str`. -/
def py_write_content : JValue → String
  | .jobj fields => json_dumps4 0 (.jobj fields)
  | .jstr s => s
  | v => py_str v

/-! ### Filesystem model

The filesystem is an association list from resolved absolute paths (lists of
components, the root slash implicit) to file data.  Directories exist
implicitly.  `FileData.binary` stands for a file whose bytes decode neither
as UTF-8 nor as windows-1252, so that `read_file_content` fails on it. -/

inductive FileData where
  | text (s : String)
  | binary
deriving DecidableEq

/-- The filesystem state. -/
abbrev Fs := List (List String × FileData)

/-- Text of a file as read into a zip entry (written files are text). -/
def fileText : FileData → String
  | .text s => s
  | .binary => ""

/-- Model of `read_file_content` (lines 452-469): the decoded text, or
`None` when decoding fails under both encodings or the read errors. -/
def read_file_content : FileData → Option String
  | .text s => some s
  | .binary => none

/-- Overwriting write of one file. -/
def fsWrite (fs : Fs) (p : List String) (d : FileData) : Fs :=
  if fs.any (fun e => e.1 == p) then
    fs.map (fun e => if e.1 == p then (p, d) else e)
  else fs ++ [(p, d)]

/-- Model of `shutil.rmtree`: every entry under the root disappears. -/
def fsRemoveTree (fs : Fs) (root : List String) : Fs :=
  fs.filter (fun e => !(root.isPrefixOf e.1))

/-- Files strictly under a directory, as discovered by `os.walk`. -/
def fsUnder (fs : Fs) (root : List String) : Fs :=
  fs.filter (fun e => root.isPrefixOf e.1 && decide (root.length < e.1.length))

/-- Files visited by the `os.walk` of `analyze_asp_project` (lines 182-184):
any subtree whose directory component is `.git` is pruned from `dirs`. -/
def walkFiles (fs : Fs) (root : List String) : Fs :=
  (fsUnder fs root).filter (fun e => !((e.1.drop root.length).dropLast.contains ".git"))

/-- Zip archive built by walking a directory (lines 540-545 and 476-481):
entry names are the paths relative to the root. -/
def zipOf (fs : Fs) (root : List String) : List (String × String) :=
  (fsUnder fs root).map (fun e => (joinPath (e.1.drop root.length), fileText e.2))

/-- Kernel-level path resolution applied when a written path is opened:
empty and dot components vanish, a dot-dot component pops (staying at the
root when already there). -/
def resolveComps (acc : List String) : List String → List String
  | [] => acc
  | c :: rest =>
    if c = "" then resolveComps acc rest
    else if c = "." then resolveComps acc rest
    else if c = ".." then resolveComps acc.dropLast rest
    else resolveComps (acc ++ [c]) rest

/-- Model of `os.path.join(base, rel)` for a base given as components: an
absolute right operand discards the base, an empty right operand leaves the
base directory. -/
def osPathJoin (base : List String) (rel : String) : List String :=
  if rel.data.isEmpty then base
  else if startsWithSlash rel then splitPath rel
  else base ++ splitPath rel

/-- Resolved path at which a key of the generated mapping is written
(line 525 and the `open` of line 535). -/
def mvcPath (projectDir : List String) (key : String) : List String :=
  resolveComps [] (osPathJoin projectDir key)

/-! ### Environment: the oracles and fresh directories of one request -/

/-- The external LLM service: `classify` maps the file path and content fed
into the classification prompt to the response text; `generate` is the
response text of the single generation call of the request. -/
structure LLMEnv where
  classify : String → String → String
  generate : String

/-- Per-request environment: the outcome of `git clone` (`none` is a failed
clone, otherwise the cloned tree as paths relative to the clone directory),
the directories handed out by `tempfile.mkdtemp` and `tempfile.gettempdir()`,
and the Downloads directory. -/
structure Env where
  llm : LLMEnv
  cloneFiles : Option (List (List String × FileData))
  cloneDir : List String
  outputDir : List String
  tmpDir : List String
  downloadsDir : List String

/-- Observable external effects of a request. -/
inductive Effect where
  | gitClone (url : String)
  | llmClassify (path content : String)
  | llmGenerate
deriving DecidableEq

/-- Python exceptions reachable inside the endpoint try-block of the model. -/
inductive PyErr where
  | httpError (status : Nat) (detail : String)
  | attributeError (msg : String)
  | keyError (msg : String)
  | typeError (msg : String)
deriving DecidableEq

/-- Model of `str(e)` as used by the top-level handler; for an
`HTTPException` Starlette renders `"status: detail"`, for the other
exceptions the message carried by the error stands for the CPython text. -/
def pyErrStr : PyErr → String
  | .httpError status detail => toString status ++ ": " ++ detail
  | .attributeError m => m
  | .keyError m => m
  | .typeError m => m

/-- HTTP-level outcome of a request: an `HTTPException` response, the
streamed zip, or an exception escaping the handler before the try-block. -/
inductive Response where
  | http (status : Nat) (detail : String)
  | zip (entries : List (String × String)) (media : String) (disposition : String)
  | fatal (msg : String)
deriving DecidableEq

/-- Result of one request: the response, the final filesystem, and the trace
of external effects. -/
structure RunResult where
  resp : Response
  fs : Fs
  effects : List Effect
deriving DecidableEq

/-! ### Analysis (`classify_file_with_openai` callers) -/

/-- One entry appended to a bucket of the project structure (lines 172-178). -/
structure FileRecord where
  file_path : String
  classification : JValue
  reason : JValue
  conversion_type : JValue
  content : String

/-- The five bucket keys of `project_structure` (lines 157-163). -/
def bucketNames : List String := ["Views", "Controllers", "Models", "Configurations", "Other"]

/-- The initial `project_structure` value. -/
def initStructure : List (String × List FileRecord) := bucketNames.map (fun n => (n, []))

/-- Appending a record to the bucket of the given category. -/
def bucketAppend (st : List (String × List FileRecord)) (c : String) (r : FileRecord) :
    List (String × List FileRecord) :=
  st.map (fun b => if b.1 = c then (b.1, b.2 ++ [r]) else b)

/-- The extensions filter of line 186. -/
def asp_extensions : List String := [".asp", ".asa", ".inc", ".html", ".css", ".js"]

/-- Test of `file.lower().endswith((...))` on a file name. -/
def matchesExt (filename : String) : Bool :=
  asp_extensions.any (fun suffix => endsWithStr (lowerStr filename) suffix)

/-- Model of the inner `analyze_file` task (lines 165-178) on one file:
unreadable or empty content returns early; otherwise one classification
request is made; a non-dict classification raises `AttributeError` at
`.get`, an unhashable category raises `TypeError` at the `in` test, a
category outside the buckets is skipped, and a missing `classification` or
`reason` key raises `KeyError`.  The second component is the trace of LLM
requests made by the task. -/
def analyze_file (llm : LLMEnv) (path : String) (d : FileData) :
    Except PyErr (Option (String × FileRecord)) × List Effect :=
  match read_file_content d with
  | none => (.ok none, [])
  | some content =>
    if content = "" then (.ok none, [])
    else
      let cls := classify_file_with_openai path content (llm.classify path content)
      let res : Except PyErr (Option (String × FileRecord)) :=
        match cls with
        | .jobj fields =>
          match jgetD fields "category" (.jstr "Other") with
          | .jstr c =>
            if bucketNames.contains c then
              match jlookup fields "classification", jlookup fields "reason" with
              | some cv, some rv =>
                .ok (some (c, ⟨path, cv, rv, jgetD fields "conversion_type" (.jstr "Unknown"),
                        content⟩))
              | none, _ => .error (.keyError "classification")
              | some _, none => .error (.keyError "reason")
            else .ok none
          | .jarr _ => .error (.typeError "unhashable type: list")
          | .jobj _ => .error (.typeError "unhashable type: dict")
          | _ => .ok none
        | _ => .error (.attributeError "object has no attribute get")
      (res, [.llmClassify path content])

/-- Collection loop over the futures (lines 190-194): task exceptions are
printed and ignored, successful categorised results were already appended to
their buckets. -/
def collectResults (st : List (String × List FileRecord)) :
    List (Except PyErr (Option (String × FileRecord))) → List (String × List FileRecord)
  | [] => st
  | (Except.ok (some (c, r))) :: rest => collectResults (bucketAppend st c r) rest
  | (Except.ok none) :: rest => collectResults st rest
  | (Except.error _) :: rest => collectResults st rest

/-- Model of `analyze_asp_project` (lines 153-196): walk the clone pruning
`.git`, submit one task per file matching the extension filter, collect the
results.  Bucket contents keep submission order; completion order of the
thread pool is not observable in the result sets the claims are about. -/
def analyze_asp_project (llm : LLMEnv) (fs : Fs) (root : List String) :
    List (String × List FileRecord) × List Effect :=
  let submitted := (walkFiles fs root).filter (fun e => matchesExt (e.1.getLastD ""))
  let tasks := submitted.map (fun e => analyze_file llm (joinPath e.1) e.2)
  (collectResults initStructure (tasks.map Prod.fst), (tasks.map Prod.snd).flatten)

/-! ### Generation and the endpoint -/

/-- Model of `generate_mvc_with_openai` (lines 198-449): the prompt built
from the analysis data and project name is sent to the LLM; the parsed
response is returned, or the empty dict on a decode error. -/
def generate_mvc_with_openai (analysis_data : List (String × List FileRecord))
    (project_name : String) (response : String) : JValue :=
  match extract_llm_json response with
  | some v => v
  | none => .jobj []

/-- Model of `clone_and_zip_repo` (lines 59-91): on success the cloned tree
appears under the fresh clone directory and the intermediate archive
`cloned_repo.zip` is written into the system temp directory; any failure is
caught inside the helper, which then returns `none`. -/
def clone_and_zip_repo (env : Env) (fs : Fs) (url : String) :
    Option (List String × List String) × Fs × List Effect :=
  match env.cloneFiles with
  | none => (none, fs, [.gitClone url])
  | some files =>
    let fs1 := files.foldl (fun acc f => fsWrite acc (env.cloneDir ++ f.1) f.2) fs
    let zipPath := env.tmpDir ++ ["cloned_repo.zip"]
    (some (zipPath, env.cloneDir), fsWrite fs1 zipPath .binary, [.gitClone url])

/-- Name derived for the project (line 513). -/
def derive_project_name (github_url : String) : String :=
  py_str_replace ((splitPath github_url).getLastD "") ".git" ""

/-- Writing the generated mapping to disk (lines 524-536). -/
def writeMvcFiles (projectDir : List String) (items : List (String × JValue)) (fs : Fs) : Fs :=
  items.foldl (fun acc kv => fsWrite acc (mvcPath projectDir kv.1) (.text (py_write_content kv.2))) fs

/-- Body of the endpoint try-block (lines 503-556), for a request whose
`githubUrl` value passed the truthiness gate.  On success it returns the
entries of the streamed archive and the project name; a raised exception is
the `Except.error` case.  A truthy non-string URL makes `subprocess.run`
raise inside `clone_and_zip_repo`, which swallows the error and reports a
failed clone.  The `os.walk` of the zip stage opens the project directory
through the OS, which resolves dot and dot-dot components of the joined
path, so the archive is built over the resolved project directory; the
relative entry names computed by `os.path.relpath` normalise the same way.
A project name such as dot-dot therefore makes the walk archive the
resolved parent of the output directory. -/
def process_github_body (env : Env) (fs : Fs) (gh : JValue) :
    Except PyErr (List (String × String) × String) × Fs × List Effect :=
  match gh with
  | .jstr url =>
    match clone_and_zip_repo env fs url with
    | (none, fs1, fx1) => (.error (.httpError 500 "Failed to clone repository"), fs1, fx1)
    | (some (_zipPath, clonePath), fs1, fx1) =>
      let analyzed := analyze_asp_project env.llm fs1 clonePath
      let project_name := derive_project_name url
      let mvc := generate_mvc_with_openai analyzed.1 project_name env.llm.generate
      match mvc with
      | .jobj items =>
        let projectDir := osPathJoin env.outputDir project_name
        let fs2 := writeMvcFiles projectDir items fs1
        let entries := zipOf fs2 (resolveComps [] projectDir)
        let fs3 := fsWrite fs2 (env.downloadsDir ++ [project_name ++ ".zip"]) .binary
        let fs4 := fsRemoveTree fs3 clonePath
        let fs5 := fsRemoveTree fs4 env.outputDir
        (.ok (entries, project_name), fs5, fx1 ++ analyzed.2 ++ [.llmGenerate])
      | _ =>
        (.error (.attributeError "object has no attribute items"), fs1,
         fx1 ++ analyzed.2 ++ [.llmGenerate])
  | _ => (.error (.httpError 500 "Failed to clone repository"), fs, [])

/-- True when the mantissa of a number lexeme is zero (the Python float and
int zero values are falsy; `NaN` and the infinities are truthy). -/
def isZeroLexeme (s : String) : Bool :=
  (s.data.takeWhile (fun c => c ≠ 'e' ∧ c ≠ 'E')).all (fun c => c = '0' || c = '-' || c = '.')

/-- Python truthiness of a JSON-decoded value, as tested by
`if not github_url` (line 500). -/
def jvalTruthy : JValue → Bool
  | .jnull => false
  | .jbool b => b
  | .jnum lex => !(isZeroLexeme lex)
  | .jstr s => !(s.data.isEmpty)
  | .jarr l => !(l.isEmpty)
  | .jobj f => !(f.isEmpty)

/-- The streamed success response (lines 557-561). -/
def streaming_zip_response (entries : List (String × String)) (project_name : String) : Response :=
  .zip entries "application/zip" ("attachment; filename=" ++ project_name ++ "_mvc_project.zip")

/-- Model of the `process_github` endpoint (lines 496-565).  The framework
has already parsed the request body into `body`.  A missing or falsy
`githubUrl` raises the 400 before the try-block; any exception inside the
try-block is caught, printed and converted to a 500 whose detail is
`str(e)`; a non-dict body makes `data.get` raise outside the try-block. -/
def process_github (env : Env) (fs : Fs) (body : JValue) : RunResult :=
  match body with
  | .jobj fields =>
    match jlookup fields "githubUrl" with
    | some gh =>
      if jvalTruthy gh then
        match process_github_body env fs gh with
        | (.ok (entries, project_name), fs2, fx) =>
          ⟨streaming_zip_response entries project_name, fs2, fx⟩
        | (.error e, fs2, fx) => ⟨.http 500 (pyErrStr e), fs2, fx⟩
      else ⟨.http 400 "GitHub URL is required", fs, []⟩
    | none => ⟨.http 400 "GitHub URL is required", fs, []⟩
  | _ => ⟨.fatal "AttributeError: no attribute get", fs, []⟩

/-- The route table registered on the FastAPI app: the single decorator of
line 496. -/
def app_routes : List (String × String) := [("POST", "/process-github")]

/-! ### Predicates used by the theorems -/

/-- Membership test against `if not github_url` on the result of
`data.get("githubUrl")`: an absent key yields `None`, which is falsy. -/
def jtruthyOpt : Option JValue → Bool
  | some v => jvalTruthy v
  | none => false

/-- A task makes its classification request exactly when the file content is
readable and non-empty. -/
def fileReadable : FileData → Bool
  | .text s => if s = "" then false else true
  | .binary => false

/-- A path component that survives kernel path resolution unchanged. -/
def goodCompB (c : String) : Bool := !(c == "") && !(c == ".") && !(c == "..")

/-- A project name that denotes a direct child of the output directory (or
the output directory itself when empty). -/
def goodProjName (n : String) : Bool :=
  (n == "") || (goodCompB n && !(n.data.contains '/'))

/-- A generated-mapping key that is a plain normalised relative path. -/
def goodKeyB (k : String) : Bool :=
  !((splitPath k).isEmpty) && (splitPath k).all goodCompB && (joinPath (splitPath k) == k)

/-- Pairwise prefix-freedom of component paths (in particular pairwise
distinctness, since every list is a prefix of itself). -/
def pairwiseNoPrefixB : List (List String) → Bool
  | [] => true
  | x :: xs => xs.all (fun y => !(x.isPrefixOf y) && !(y.isPrefixOf x)) && pairwiseNoPrefixB xs

/-- String-value test for JSON values. -/
def isJStrB : JValue → Bool
  | .jstr _ => true
  | _ => false

/-- The carried string of a JSON string value. -/
def jstrVal : JValue → String
  | .jstr s => s
  | _ => ""

/-- Hypotheses on the generated mapping under which the materialise-and-zip
round trip is loss-free: every key a normalised relative path, keys pairwise
prefix-free (nested or colliding keys would make `os.makedirs` or `open`
raise on the real filesystem), every value a string. -/
def mvcKeysOk (items : List (String × JValue)) : Bool :=
  items.all (fun kv => goodKeyB kv.1 && isJStrB kv.2) &&
  pairwiseNoPrefixB (items.map (fun kv => splitPath kv.1))

/-- A classification record whose `category` value is not one of the five
bucket keys (a non-string category is never equal to a bucket key either). -/
def badCategoryB : JValue → Bool
  | .jobj fields =>
    match jgetD fields "category" (.jstr "Other") with
    | .jstr s => !(bucketNames.contains s)
    | _ => true
  | _ => false

/-- True when some bucket of the analysis structure holds a record for the
given file path. -/
def inSomeBucketB (st : List (String × List FileRecord)) (path : String) : Bool :=
  st.any (fun b => b.2.any (fun r => r.file_path == path))

/-- Freshness and separation guarantees of the environment that the real
system provides: `tempfile.mkdtemp` returns fresh empty directories distinct
from each other and from the fixed intermediate zip path, and the directory
components handed out by the OS are plain names. -/
def envOk (env : Env) (fs : Fs) : Bool :=
  fs.all (fun e => !(env.cloneDir.isPrefixOf e.1) && !(env.outputDir.isPrefixOf e.1)) &&
  !(env.cloneDir.isPrefixOf env.outputDir) && !(env.outputDir.isPrefixOf env.cloneDir) &&
  !(env.outputDir.isPrefixOf (env.tmpDir ++ ["cloned_repo.zip"])) &&
  !(env.cloneDir.isPrefixOf (env.tmpDir ++ ["cloned_repo.zip"])) &&
  env.outputDir.all goodCompB

/-! ### Concrete environments used by witnesses and counterexamples -/

/-- An LLM oracle answering with a well-formed classification record and a
well-formed single-file generation mapping. -/
def llmA : LLMEnv :=
  { classify := fun _ _ =>
      "\x7b\"classification\": \"conversion_needed\", \"reason\": \"r\", \"category\": \"Views\", \"conversion_type\": \"Razor View\"\x7d",
    generate := "\x7b\"Program.cs\": \"code\"\x7d" }

/-- A request environment whose clone succeeds with one ASP file. -/
def envA : Env :=
  { llm := llmA,
    cloneFiles := some [(["index.asp"], FileData.text "hello")],
    cloneDir := ["tmp", "clonea"],
    outputDir := ["tmp", "outa"],
    tmpDir := ["tmp"],
    downloadsDir := ["home", "dl"] }

/-- A request body carrying a well-formed repository URL. -/
def bodyA : JValue := .jobj [("githubUrl", .jstr "https://h/repo.git")]

/-- A request environment whose `git clone` fails. -/
def envB : Env :=
  { llm := llmA,
    cloneFiles := none,
    cloneDir := ["tmp", "cloneb"],
    outputDir := ["tmp", "outb"],
    tmpDir := ["tmp"],
    downloadsDir := ["home", "dl"] }

/-! ### Theorems -/

/-- C2.  Whenever the classification response parses neither from a fenced
json block nor as raw text, `classify_file_with_openai` returns the default
classification record for the file (classification `unknown`, category
`Other`, conversion type `Unknown`) instead of propagating the error. -/
theorem classify_malformed_returns_default (file_path content response : String)
    (h : extract_llm_json response = none) :
    classify_file_with_openai file_path content response = default_classification file_path := by
  unfold classify_file_with_openai
  rw [h]

/-- Witness for C2 at a concrete malformed response. -/
theorem classify_malformed_returns_default_witness :
    extract_llm_json "no json here" = none ∧
    classify_file_with_openai "f.asp" "x" "no json here" = default_classification "f.asp" :=
  ⟨rfl, classify_malformed_returns_default "f.asp" "x" "no json here" rfl⟩

/-- C9.  A request body without a truthy `githubUrl` value (missing key or
falsy value) is answered with HTTP 400 and detail `GitHub URL is required`,
with the filesystem untouched and no clone or LLM effect performed. -/
theorem process_github_missing_url_400 (env : Env) (fs : Fs) (fields : List (String × JValue))
    (h : jtruthyOpt (jlookup fields "githubUrl") = false) :
    process_github env fs (.jobj fields) = ⟨.http 400 "GitHub URL is required", fs, []⟩ := by
  cases hl : jlookup fields "githubUrl" with
  | none => simp [process_github, hl]
  | some v =>
    rw [hl] at h
    simp only [jtruthyOpt] at h
    simp [process_github, hl, h]

/-- Witness for C9 at a concrete falsy URL value. -/
theorem process_github_missing_url_400_witness :
    jtruthyOpt (jlookup [("githubUrl", JValue.jstr "")] "githubUrl") = false ∧
    process_github envA [] (.jobj [("githubUrl", JValue.jstr "")]) =
      ⟨.http 400 "GitHub URL is required", [], []⟩ :=
  ⟨rfl, process_github_missing_url_400 envA [] [("githubUrl", JValue.jstr "")] rfl⟩

/-- Effects of one task: exactly one classification request when the file
content is readable and non-empty, none otherwise. -/
lemma analyze_file_effects (llm : LLMEnv) (p : String) (d : FileData) :
    (analyze_file llm p d).2 =
      if fileReadable d then [Effect.llmClassify p (fileText d)] else [] := by
  cases d with
  | binary => rfl
  | text s =>
    by_cases h : s = ""
    · subst h; rfl
    · simp [analyze_file, read_file_content, fileReadable, fileText, h]

/-- Flattening a map that yields singletons exactly on a filter. -/
lemma flatten_map_ite {α β : Type} (p : α → Bool) (g : α → β) (f : α → List β)
    (hf : ∀ a, f a = if p a then [g a] else []) :
    ∀ l : List α, (l.map f).flatten = (l.filter p).map g := by
  intro l
  induction l with
  | nil => rfl
  | cons a l ih =>
    by_cases h : p a
    · simp [hf a, h, ih, List.filter_cons]
    · simp [hf a, h, ih, List.filter_cons]

/-- The request trace of the analysis: one classification request per walked
file with a handled extension and readable non-empty content. -/
lemma analyze_effects (llm : LLMEnv) (fs : Fs) (root : List String) :
    (analyze_asp_project llm fs root).2 =
      ((walkFiles fs root).filter
          (fun e => matchesExt (e.1.getLastD "") && fileReadable e.2)).map
        (fun e => Effect.llmClassify (joinPath e.1) (fileText e.2)) := by
  unfold analyze_asp_project
  simp only [List.map_map]
  rw [flatten_map_ite (fun e => fileReadable e.2)
        (fun e => Effect.llmClassify (joinPath e.1) (fileText e.2))
        _ (fun e => by simp [Function.comp, analyze_file_effects])]
  rw [List.filter_filter]
  exact congrArg _ (List.filter_congr (fun a _ => Bool.and_comm _ _))

/-- The collection loop drops a failed task without affecting the rest. -/
lemma collectResults_ignores_error (e : PyErr)
    (ys : List (Except PyErr (Option (String × FileRecord)))) :
    ∀ (xs : List (Except PyErr (Option (String × FileRecord))))
      (st : List (String × List FileRecord)),
      collectResults st (xs ++ Except.error e :: ys) = collectResults st (xs ++ ys) := by
  intro xs
  induction xs with
  | nil => intro st; rfl
  | cons x xs ih =>
    intro st
    cases x with
    | error e2 => simpa [collectResults] using ih st
    | ok o =>
      cases o with
      | none => simpa [collectResults] using ih st
      | some cr =>
        obtain ⟨c, r⟩ := cr
        simp only [List.cons_append, collectResults]
        exact ih _

/-- C5 (amended).  During analysis exactly one classification request is
issued per discovered file that has a handled extension and readable
non-empty content (files failing the extension filter are never submitted,
and a submitted file with unreadable or empty content returns before calling
the LLM); and the collection of task results drops a failed task without
aborting the analysis of the other files. -/
theorem analyze_one_request_per_analyzable_file :
    (∀ (llm : LLMEnv) (fs : Fs) (root : List String),
       (analyze_asp_project llm fs root).2 =
         ((walkFiles fs root).filter
             (fun e => matchesExt (e.1.getLastD "") && fileReadable e.2)).map
           (fun e => Effect.llmClassify (joinPath e.1) (fileText e.2))) ∧
    (∀ (st : List (String × List FileRecord)) (e : PyErr)
       (xs ys : List (Except PyErr (Option (String × FileRecord)))),
       collectResults st (xs ++ Except.error e :: ys) = collectResults st (xs ++ ys)) := by
  constructor
  · exact analyze_effects
  · intro st e xs ys
    exact collectResults_ignores_error e ys xs st

/-- A trivial oracle for the C5 counterexample. -/
def llmC5 : LLMEnv := { classify := fun _ _ => "x", generate := "x" }

/-- A clone holding a single discovered `.asp` file with empty content. -/
def fsC5 : Fs := [(["r", "a.asp"], FileData.text "")]

/-- Counterexample to C5 as stated: the walk discovers exactly one file,
that file passes the extension filter and is submitted as a task, yet no
classification request at all is issued for it (its content is empty), so
the analysis does not issue one classification request per discovered
file. -/
theorem analyze_empty_file_no_request_cex :
    (walkFiles fsC5 ["r"]).length = 1 ∧
    ((walkFiles fsC5 ["r"]).filter (fun e => matchesExt (e.1.getLastD ""))).length = 1 ∧
    (analyze_asp_project llmC5 fsC5 ["r"]).2 = [] :=
  ⟨rfl, rfl, rfl⟩

/-- Appending a record for a different file path leaves bucket membership of
this path unchanged. -/
lemma inSomeBucketB_bucketAppend (c : String) (r : FileRecord) (path : String)
    (h : (r.file_path == path) = false) (st : List (String × List FileRecord)) :
    inSomeBucketB (bucketAppend st c r) path = inSomeBucketB st path := by
  have hf : ∀ b : String × List FileRecord,
      ((if b.1 = c then (b.1, b.2 ++ [r]) else b).2.any (fun x => x.file_path == path))
        = b.2.any (fun x => x.file_path == path) := by
    intro b
    by_cases hb : b.1 = c
    · simp [hb, List.any_append, h]
    · simp [hb]
  unfold inSomeBucketB bucketAppend
  rw [List.any_map]
  congr 1
  funext b
  exact hf b

/-- Collecting tasks none of which carries a record for the path keeps the
path out of every bucket. -/
lemma collect_not_in_bucket (path : String) :
    ∀ (tasks : List (Except PyErr (Option (String × FileRecord))))
      (st : List (String × List FileRecord)),
      (∀ c r, Except.ok (some (c, r)) ∈ tasks → (r.file_path == path) = false) →
      inSomeBucketB st path = false →
      inSomeBucketB (collectResults st tasks) path = false := by
  intro tasks
  induction tasks with
  | nil => intro st h hst; exact hst
  | cons t tasks ih =>
    intro st h hst
    cases t with
    | error e => exact ih st (fun c r hm => h c r (List.mem_cons_of_mem _ hm)) hst
    | ok o =>
      cases o with
      | none => exact ih st (fun c r hm => h c r (List.mem_cons_of_mem _ hm)) hst
      | some cr =>
        obtain ⟨c0, r0⟩ := cr
        have hr : (r0.file_path == path) = false := h c0 r0 (List.mem_cons_self _ _)
        refine ih (bucketAppend st c0 r0) (fun c r hm => h c r (List.mem_cons_of_mem _ hm)) ?_
        rw [inSomeBucketB_bucketAppend c0 r0 path hr st]
        exact hst

/-- A successfully categorised task carries the path of its own file. -/
lemma analyze_file_ok_path (llm : LLMEnv) (p : String) (d : FileData) (c : String)
    (r : FileRecord) (h : (analyze_file llm p d).1 = Except.ok (some (c, r))) :
    r.file_path = p := by
  cases d with
  | binary => exact absurd h (by simp [analyze_file, read_file_content])
  | text s =>
    by_cases hs : s = ""
    · subst hs; exact absurd h (by simp [analyze_file, read_file_content])
    · simp only [analyze_file, read_file_content, if_neg hs] at h
      split at h
      next fields =>
        split at h
        next c0 =>
          split at h
          next hc =>
            split at h
            next cv rv hcv hrv =>
              simp only [Except.ok.injEq, Option.some.injEq, Prod.mk.injEq] at h
              rw [← h.2]
            next hcase => exact absurd h (by simp)
            next cv hcv hrv => exact absurd h (by simp)
          next hc => exact absurd h (by simp)
        next elems => exact absurd h (by simp)
        next fields2 => exact absurd h (by simp)
        next hother => exact absurd h (by simp)
      next hother => exact absurd h (by simp)

/-- A task for an unreadable or empty file returns early with no effect. -/
lemma analyze_file_unreadable (llm : LLMEnv) (p : String) (d : FileData)
    (h : fileReadable d = false) : analyze_file llm p d = (Except.ok none, []) := by
  cases d with
  | binary => rfl
  | text s =>
    by_cases hs : s = ""
    · subst hs; rfl
    · simp [fileReadable, hs] at h

/-- A task whose classification record has a category outside the buckets
never produces a categorised result. -/
lemma analyze_file_bad_category (llm : LLMEnv) (p : String) (d : FileData)
    (h : badCategoryB (classify_file_with_openai p (fileText d)
          (llm.classify p (fileText d))) = true) :
    ∀ c r, (analyze_file llm p d).1 ≠ Except.ok (some (c, r)) := by
  intro c r
  cases d with
  | binary => simp [analyze_file, read_file_content]
  | text s =>
    by_cases hs : s = ""
    · subst hs; simp [analyze_file, read_file_content]
    · intro hok
      have hft : fileText (FileData.text s) = s := rfl
      rw [hft] at h
      simp only [analyze_file, read_file_content, if_neg hs] at hok
      rcases hcE : classify_file_with_openai p s (llm.classify p s) with _ | b | lex | str | elems | fields
      · rw [hcE] at hok; simp at hok
      · rw [hcE] at hok; simp at hok
      · rw [hcE] at hok; simp at hok
      · rw [hcE] at hok; simp at hok
      · rw [hcE] at hok; simp at hok
      · rw [hcE] at hok h
        dsimp only [] at hok
        rcases hcat : jgetD fields "category" (.jstr "Other") with _ | b2 | lex2 | c0 | elems2 | fields2
        · rw [hcat] at hok; simp at hok
        · rw [hcat] at hok; simp at hok
        · rw [hcat] at hok; simp at hok
        · rw [hcat] at hok
          dsimp only [] at hok
          by_cases hb : bucketNames.contains c0
          · simp [badCategoryB, hcat, hb] at h
            exact h (by simpa using hb)
          · rw [if_neg hb] at hok
            simp at hok
        · rw [hcat] at hok; simp at hok
        · rw [hcat] at hok; simp at hok

/-- Bucket appends do not change the key list. -/
lemma bucketAppend_keys (st : List (String × List FileRecord)) (c : String) (r : FileRecord) :
    (bucketAppend st c r).map Prod.fst = st.map Prod.fst := by
  induction st with
  | nil => rfl
  | cons b st ih =>
    simp only [bucketAppend, List.map_cons] at ih ⊢
    by_cases hb : b.1 = c
    · simp only [if_pos hb, List.map_cons]
      rw [show ((b.1, b.2 ++ [r]) : String × List FileRecord).1 = b.1 from rfl]
      exact congrArg _ ih
    · simp only [if_neg hb, List.map_cons]
      exact congrArg _ ih

/-- Collection does not change the key list. -/
lemma collectResults_keys :
    ∀ (tasks : List (Except PyErr (Option (String × FileRecord))))
      (st : List (String × List FileRecord)),
      (collectResults st tasks).map Prod.fst = st.map Prod.fst := by
  intro tasks
  induction tasks with
  | nil => intro st; rfl
  | cons t tasks ih =>
    intro st
    cases t with
    | error e => exact ih st
    | ok o =>
      cases o with
      | none => exact ih st
      | some cr =>
        obtain ⟨c, r⟩ := cr
        rw [show collectResults st (Except.ok (some (c, r)) :: tasks)
              = collectResults (bucketAppend st c r) tasks from rfl,
            ih, bucketAppend_keys]

/-- The analysis result always carries exactly the five bucket keys. -/
lemma analyze_keys (llm : LLMEnv) (fs : Fs) (root : List String) :
    (analyze_asp_project llm fs root).1.map Prod.fst = bucketNames := by
  unfold analyze_asp_project
  rw [collectResults_keys]
  rfl

/-- A walked file whose task never produces a categorised result appears in
no bucket (given path strings are not duplicated by the walk). -/
lemma analyze_not_in_buckets (llm : LLMEnv) (fs : Fs) (root : List String)
    (p : List String) (d : FileData)
    (hmem : (p, d) ∈ walkFiles fs root)
    (hnodup : ((walkFiles fs root).map (fun e => joinPath e.1)).Nodup)
    (htask : ∀ c r, (analyze_file llm (joinPath p) d).1 ≠ Except.ok (some (c, r))) :
    inSomeBucketB (analyze_asp_project llm fs root).1 (joinPath p) = false := by
  unfold analyze_asp_project
  simp only [List.map_map]
  apply collect_not_in_bucket
  · intro c r hm
    rw [List.mem_map] at hm
    obtain ⟨q, hq, hq2⟩ := hm
    have hq2b : (analyze_file llm (joinPath q.1) q.2).1 = Except.ok (some (c, r)) := hq2
    have hrp : r.file_path = joinPath q.1 := analyze_file_ok_path _ _ _ _ _ hq2b
    apply beq_eq_false_iff_ne.mpr
    intro hEq
    have hqw : q ∈ walkFiles fs root := List.mem_of_mem_filter hq
    have hj : joinPath q.1 = joinPath p := by rw [← hrp, hEq]
    have hqp : q = (p, d) := List.inj_on_of_nodup_map hnodup hqw hmem hj
    rw [hqp] at hq2b
    exact htask c r hq2b
  · rfl

/-- C8.  The analysis result is always the dictionary with exactly the five
bucket keys, each a list; and a file whose classification record carries a
category value other than the five bucket keys is dropped: it appears in no
bucket of the result. -/
theorem analyze_bucket_keys_and_bad_category_dropped :
    (∀ (llm : LLMEnv) (fs : Fs) (root : List String),
       (analyze_asp_project llm fs root).1.map Prod.fst = bucketNames) ∧
    (∀ (llm : LLMEnv) (fs : Fs) (root : List String) (p : List String) (d : FileData),
       (p, d) ∈ walkFiles fs root →
       ((walkFiles fs root).map (fun e => joinPath e.1)).Nodup →
       badCategoryB (classify_file_with_openai (joinPath p) (fileText d)
           (llm.classify (joinPath p) (fileText d))) = true →
       inSomeBucketB (analyze_asp_project llm fs root).1 (joinPath p) = false) := by
  refine ⟨analyze_keys, ?_⟩
  intro llm fs root p d hmem hnodup hbad
  exact analyze_not_in_buckets llm fs root p d hmem hnodup
    (analyze_file_bad_category llm (joinPath p) d hbad)

/-- An oracle answering with a record whose category is not a bucket key. -/
def llmC8 : LLMEnv :=
  { classify := fun _ _ =>
      "\x7b\"classification\": \"x\", \"reason\": \"r\", \"category\": \"Garbage\"\x7d",
    generate := "x" }

/-- A clone with one classified file, for the C8 witness. -/
def fsC8 : Fs := [(["r", "b.asp"], FileData.text "code")]

/-- Witness for C8 at a concrete bad-category classification. -/
theorem analyze_bucket_keys_and_bad_category_dropped_witness :
    ((["r", "b.asp"], FileData.text "code") ∈ walkFiles fsC8 ["r"] ∧
     ((walkFiles fsC8 ["r"]).map (fun e => joinPath e.1)).Nodup ∧
     badCategoryB (classify_file_with_openai (joinPath ["r", "b.asp"])
         (fileText (FileData.text "code"))
         (llmC8.classify (joinPath ["r", "b.asp"]) (fileText (FileData.text "code")))) = true) ∧
    inSomeBucketB (analyze_asp_project llmC8 fsC8 ["r"]).1 (joinPath ["r", "b.asp"]) = false :=
  ⟨⟨by decide, by decide, by decide⟩,
   analyze_bucket_keys_and_bad_category_dropped.2 llmC8 fsC8 ["r"] ["r", "b.asp"]
     (FileData.text "code") (by decide) (by decide) (by decide)⟩

/-- C10.  A discovered file whose content is unreadable or empty is silently
skipped: no classification request is issued for it and it appears in no
bucket of the analysis result. -/
theorem analyze_unreadable_or_empty_skipped (llm : LLMEnv) (fs : Fs) (root : List String)
    (p : List String) (d : FileData)
    (hmem : (p, d) ∈ walkFiles fs root)
    (hnodup : ((walkFiles fs root).map (fun e => joinPath e.1)).Nodup)
    (hbad : d = FileData.binary ∨ d = FileData.text "") :
    (∀ content, Effect.llmClassify (joinPath p) content ∉ (analyze_asp_project llm fs root).2) ∧
    inSomeBucketB (analyze_asp_project llm fs root).1 (joinPath p) = false := by
  have hreadable : fileReadable d = false := by
    rcases hbad with h | h <;> subst h <;> rfl
  constructor
  · intro content hin
    rw [analyze_effects] at hin
    rw [List.mem_map] at hin
    obtain ⟨q, hq, hq2⟩ := hin
    injection hq2 with hj hcontent
    have hqw : q ∈ walkFiles fs root := List.mem_of_mem_filter hq
    have hqp : q = (p, d) := List.inj_on_of_nodup_map hnodup hqw hmem hj
    have hqr := List.of_mem_filter hq
    rw [hqp] at hqr
    simp [hreadable] at hqr
  · apply analyze_not_in_buckets llm fs root p d hmem hnodup
    intro c r h
    rw [analyze_file_unreadable llm (joinPath p) d hreadable] at h
    simp at h

/-- A clone with one undecodable file, for the C10 witness. -/
def fsC10 : Fs := [(["r", "c.asp"], FileData.binary)]

/-- Witness for C10 at a concrete binary file. -/
theorem analyze_unreadable_or_empty_skipped_witness :
    ((["r", "c.asp"], FileData.binary) ∈ walkFiles fsC10 ["r"] ∧
     ((walkFiles fsC10 ["r"]).map (fun e => joinPath e.1)).Nodup ∧
     (FileData.binary = FileData.binary ∨ FileData.binary = FileData.text "")) ∧
    ((∀ content,
        Effect.llmClassify (joinPath ["r", "c.asp"]) content ∉
          (analyze_asp_project llmC5 fsC10 ["r"]).2) ∧
     inSomeBucketB (analyze_asp_project llmC5 fsC10 ["r"]).1 (joinPath ["r", "c.asp"]) = false) :=
  ⟨⟨by decide, by decide, Or.inl rfl⟩,
   analyze_unreadable_or_empty_skipped llmC5 fsC10 ["r"] ["r", "c.asp"] FileData.binary
     (by decide) (by decide) (Or.inl rfl)⟩

/-- Inversion of a success response: the body was a dict with a truthy
`githubUrl`, the try-block succeeded, and the response fields are those of
`streaming_zip_response`. -/
lemma process_github_zip_inv (env : Env) (fs : Fs) (body : JValue)
    (entries : List (String × String)) (media dispo : String)
    (h : (process_github env fs body).resp = Response.zip entries media dispo) :
    ∃ fields gh out fs2 fx,
      body = JValue.jobj fields ∧
      jlookup fields "githubUrl" = some gh ∧
      jvalTruthy gh = true ∧
      process_github_body env fs gh = (Except.ok out, fs2, fx) ∧
      process_github env fs body = ⟨streaming_zip_response out.1 out.2, fs2, fx⟩ ∧
      entries = out.1 ∧ media = "application/zip" ∧
      dispo = "attachment; filename=" ++ out.2 ++ "_mvc_project.zip" := by
  cases body with
  | jobj fields =>
    cases hl : jlookup fields "githubUrl" with
    | none =>
      have hrun : process_github env fs (.jobj fields)
          = ⟨.http 400 "GitHub URL is required", fs, []⟩ := by simp [process_github, hl]
      rw [hrun] at h
      exact absurd h (by simp)
    | some gh =>
      by_cases ht : jvalTruthy gh
      · rcases hb : process_github_body env fs gh with ⟨res, fs2, fx⟩
        cases res with
        | error e =>
          have hrun : process_github env fs (.jobj fields)
              = ⟨.http 500 (pyErrStr e), fs2, fx⟩ := by simp [process_github, hl, ht, hb]
          rw [hrun] at h
          exact absurd h (by simp)
        | ok out =>
          obtain ⟨ent2, name2⟩ := out
          have hrun : process_github env fs (.jobj fields)
              = ⟨streaming_zip_response ent2 name2, fs2, fx⟩ := by
            simp [process_github, hl, ht, hb]
          rw [hrun] at h
          have h2 : Response.zip ent2 "application/zip"
              ("attachment; filename=" ++ name2 ++ "_mvc_project.zip")
              = Response.zip entries media dispo := h
          injection h2 with he hm hd
          exact ⟨fields, gh, (ent2, name2), fs2, fx, rfl, hl, ht, hb, hrun,
            he.symm, hm.symm, hd.symm⟩
      · have hrun : process_github env fs (.jobj fields)
            = ⟨.http 400 "GitHub URL is required", fs, []⟩ := by
          simp [process_github, hl, ht]
        rw [hrun] at h
        exact absurd h (by simp)
  | jnull => simp [process_github] at h
  | jbool b => simp [process_github] at h
  | jnum lex => simp [process_github] at h
  | jstr s => simp [process_github] at h
  | jarr elems => simp [process_github] at h

/-- C6.  The application registers exactly one route, and every success
response is streamed with media type `application/zip` and an attachment
content disposition naming the generated project archive. -/
theorem single_endpoint_and_zip_response :
    app_routes = [("POST", "/process-github")] ∧
    (∀ (env : Env) (fs : Fs) (body : JValue) (entries : List (String × String))
       (media dispo : String),
       (process_github env fs body).resp = Response.zip entries media dispo →
       media = "application/zip" ∧
       ∃ name, dispo = "attachment; filename=" ++ name ++ "_mvc_project.zip") := by
  refine ⟨rfl, ?_⟩
  intro env fs body entries media dispo h
  obtain ⟨fields, gh, out, fs2, fx, _, _, _, _, _, _, hm, hd⟩ :=
    process_github_zip_inv env fs body entries media dispo h
  exact ⟨hm, out.2, hd⟩

/-- Witness for C6 at a concrete successful request. -/
theorem single_endpoint_and_zip_response_witness :
    (process_github envA [] bodyA).resp =
      Response.zip [("Program.cs", "code")] "application/zip"
        "attachment; filename=repo_mvc_project.zip" ∧
    ("application/zip" = "application/zip" ∧
     ∃ name, "attachment; filename=repo_mvc_project.zip" =
       "attachment; filename=" ++ name ++ "_mvc_project.zip") :=
  ⟨rfl, single_endpoint_and_zip_response.2 envA [] bodyA
    [("Program.cs", "code")] "application/zip" "attachment; filename=repo_mvc_project.zip" rfl⟩

/-- C3.  Once the URL-presence check has passed, the endpoint produces
either the streamed zip or an HTTP 500 whose detail is exactly the message
of the caught exception — no other status; and every exception raised by the
try-block is turned into that 500 response. -/
theorem process_github_errors_return_500 (env : Env) (fs : Fs)
    (fields : List (String × JValue))
    (h : jtruthyOpt (jlookup fields "githubUrl") = true) :
    ((∃ entries name, (process_github env fs (.jobj fields)).resp =
        streaming_zip_response entries name) ∨
     (∃ e, (process_github env fs (.jobj fields)).resp = Response.http 500 (pyErrStr e))) ∧
    (∀ gh e fs2 fx, jlookup fields "githubUrl" = some gh →
       process_github_body env fs gh = (Except.error e, fs2, fx) →
       process_github env fs (.jobj fields) = ⟨Response.http 500 (pyErrStr e), fs2, fx⟩) := by
  constructor
  · cases hl : jlookup fields "githubUrl" with
    | none => rw [hl] at h; exact absurd h (by simp [jtruthyOpt])
    | some gh =>
      rw [hl] at h
      simp only [jtruthyOpt] at h
      rcases hb : process_github_body env fs gh with ⟨res, fs2, fx⟩
      cases res with
      | ok out =>
        obtain ⟨ent, name⟩ := out
        exact Or.inl ⟨ent, name, by simp [process_github, hl, h, hb]⟩
      | error e => exact Or.inr ⟨e, by simp [process_github, hl, h, hb]⟩
  · intro gh e fs2 fx hl hb
    rw [hl] at h
    simp only [jtruthyOpt] at h
    simp [process_github, hl, h, hb]

/-- Witness for C3 at a concrete failing clone. -/
theorem process_github_errors_return_500_witness :
    jtruthyOpt (jlookup [("githubUrl", JValue.jstr "u")] "githubUrl") = true ∧
    (((∃ entries name, (process_github envB [] (.jobj [("githubUrl", JValue.jstr "u")])).resp =
         streaming_zip_response entries name) ∨
      (∃ e, (process_github envB [] (.jobj [("githubUrl", JValue.jstr "u")])).resp =
         Response.http 500 (pyErrStr e))) ∧
     (∀ gh e fs2 fx, jlookup [("githubUrl", JValue.jstr "u")] "githubUrl" = some gh →
        process_github_body envB [] gh = (Except.error e, fs2, fx) →
        process_github envB [] (.jobj [("githubUrl", JValue.jstr "u")]) =
          ⟨Response.http 500 (pyErrStr e), fs2, fx⟩)) :=
  ⟨rfl, process_github_errors_return_500 envB [] [("githubUrl", JValue.jstr "u")] rfl⟩

/-- Entries surviving two tree removals satisfy both exclusions. -/
lemma fsRemoveTree_two_all (fs3 : Fs) (a b : List String) :
    ((fsRemoveTree (fsRemoveTree fs3 a) b).all
      (fun e => !(a.isPrefixOf e.1) && !(b.isPrefixOf e.1))) = true := by
  rw [List.all_eq_true]
  intro e he
  have h1 := List.of_mem_filter he
  have h2 := List.of_mem_filter (List.mem_of_mem_filter he)
  simp only [h1, h2, Bool.and_self]

/-- Inversion of a successful try-block run: the URL was a string, the clone
succeeded, and the final filesystem is the one after both tree removals. -/
lemma process_github_body_ok_inv (env : Env) (fs : Fs) (gh : JValue)
    (out : List (String × String) × String) (fs2 : Fs) (fx : List Effect)
    (h : process_github_body env fs gh = (Except.ok out, fs2, fx)) :
    ∃ url files fs3, gh = JValue.jstr url ∧ env.cloneFiles = some files ∧
      fs2 = fsRemoveTree (fsRemoveTree fs3 env.cloneDir) env.outputDir := by
  cases gh with
  | jstr url =>
    cases hcf : env.cloneFiles with
    | none => simp [process_github_body, clone_and_zip_repo, hcf] at h
    | some files =>
      simp only [process_github_body, clone_and_zip_repo, hcf] at h
      split at h
      next items heq =>
        simp only [Prod.mk.injEq] at h
        obtain ⟨h1, h2, h3⟩ := h
        exact ⟨url, files, _, rfl, rfl, h2.symm⟩
      next heq => simp at h
  | jnull => simp [process_github_body] at h
  | jbool b => simp [process_github_body] at h
  | jnum lex => simp [process_github_body] at h
  | jarr elems => simp [process_github_body] at h
  | jobj fields => simp [process_github_body] at h

/-- C7 (amended).  On every successful request the temporary clone
directory and the temporary output directory are removed before the
response is returned: no entry of the final filesystem lies under either. -/
theorem process_github_success_removes_temp_dirs (env : Env) (fs : Fs) (body : JValue)
    (entries : List (String × String)) (media dispo : String)
    (h : (process_github env fs body).resp = Response.zip entries media dispo) :
    (process_github env fs body).fs.all
      (fun e => !(env.cloneDir.isPrefixOf e.1) && !(env.outputDir.isPrefixOf e.1)) = true := by
  obtain ⟨fields, gh, out, fs2, fx, hbody, hl, ht, hb, hrun, _, _, _⟩ :=
    process_github_zip_inv env fs body entries media dispo h
  rw [hrun]
  obtain ⟨url, files, fs3, _, _, hfs2⟩ := process_github_body_ok_inv env fs gh out fs2 fx hb
  show fs2.all _ = true
  rw [hfs2]
  exact fsRemoveTree_two_all fs3 env.cloneDir env.outputDir

/-- Witness for C7 (amended) at a concrete successful request. -/
theorem process_github_success_removes_temp_dirs_witness :
    (process_github envA [] bodyA).resp =
      Response.zip [("Program.cs", "code")] "application/zip"
        "attachment; filename=repo_mvc_project.zip" ∧
    (process_github envA [] bodyA).fs.all
      (fun e => !(envA.cloneDir.isPrefixOf e.1) && !(envA.outputDir.isPrefixOf e.1)) = true :=
  ⟨rfl, process_github_success_removes_temp_dirs envA [] bodyA
    [("Program.cs", "code")] "application/zip" "attachment; filename=repo_mvc_project.zip" rfl⟩

/-- Counterexample to C7 as stated: a successful request leaves
request-scoped temporary state behind — the intermediate archive
`cloned_repo.zip` stays in the system temp directory (and a copy of the
result stays in the Downloads folder), even though the initial filesystem
was empty. -/
theorem process_github_leftover_temp_state_cex :
    (process_github envA [] bodyA).resp =
      Response.zip [("Program.cs", "code")] "application/zip"
        "attachment; filename=repo_mvc_project.zip" ∧
    (process_github envA [] bodyA).fs =
      [(envA.tmpDir ++ ["cloned_repo.zip"], FileData.binary),
       (envA.downloadsDir ++ ["repo.zip"], FileData.binary)] :=
  ⟨rfl, rfl⟩

/-- Bridge between the boolean prefix test and the prefix relation. -/
lemma prefixBoolIff {a b : List String} : a.isPrefixOf b = true ↔ a <+: b :=
  List.isPrefixOf_iff_prefix

/-- A list that extends a directory unrelated to `a` stays outside `a`. -/
lemma not_prefix_append_bool (a b r : List String)
    (h1 : a.isPrefixOf b = false) (h2 : b.isPrefixOf a = false) :
    a.isPrefixOf (b ++ r) = false := by
  cases hp : a.isPrefixOf (b ++ r)
  · rfl
  · exfalso
    have hp2 : a <+: b ++ r := prefixBoolIff.mp hp
    rcases List.prefix_or_prefix_of_prefix hp2 (List.prefix_append b r) with hc | hc
    · rw [prefixBoolIff.mpr hc] at h1
      exact Bool.noConfusion h1
    · rw [prefixBoolIff.mpr hc] at h2
      exact Bool.noConfusion h2

/-- Unpacking of the environment separation guarantees. -/
lemma envOk_spec (env : Env) (fs : Fs) (h : envOk env fs = true) :
    fs.all (fun e => !(env.cloneDir.isPrefixOf e.1) && !(env.outputDir.isPrefixOf e.1)) = true ∧
    env.cloneDir.isPrefixOf env.outputDir = false ∧
    env.outputDir.isPrefixOf env.cloneDir = false ∧
    env.outputDir.isPrefixOf (env.tmpDir ++ ["cloned_repo.zip"]) = false ∧
    env.cloneDir.isPrefixOf (env.tmpDir ++ ["cloned_repo.zip"]) = false ∧
    env.outputDir.all goodCompB = true := by
  simp only [envOk, Bool.and_eq_true, Bool.not_eq_true'] at h
  exact ⟨h.1.1.1.1.1, h.1.1.1.1.2, h.1.1.1.2, h.1.1.2, h.1.2, h.2⟩

/-- One write preserves an all-paths predicate that the new path satisfies. -/
lemma fsWrite_all (pred : List String → Bool) (fs : Fs) (p : List String) (d : FileData)
    (hfs : fs.all (fun e => pred e.1) = true) (hp : pred p = true) :
    (fsWrite fs p d).all (fun e => pred e.1) = true := by
  unfold fsWrite
  split
  · rw [List.all_eq_true] at hfs ⊢
    intro e he
    rw [List.mem_map] at he
    obtain ⟨e0, he0, he0e⟩ := he
    rw [← he0e]
    by_cases hb : e0.1 == p
    · simp only [if_pos hb]
      exact hp
    · simp only [if_neg hb]
      exact hfs e0 he0
  · rw [List.all_append]
    simp only [hfs, List.all_cons, List.all_nil, hp, Bool.and_self]

/-- A fold of writes preserves an all-paths predicate satisfied by every
written path. -/
lemma foldl_fsWrite_all {α : Type} (pred : List String → Bool) (g : α → List String)
    (hD : α → FileData) :
    ∀ (l : List α) (fs : Fs), fs.all (fun e => pred e.1) = true →
      (∀ a ∈ l, pred (g a) = true) →
      (l.foldl (fun acc a => fsWrite acc (g a) (hD a)) fs).all (fun e => pred e.1) = true := by
  intro l
  induction l with
  | nil => intro fs hfs _; exact hfs
  | cons a l ih =>
    intro fs hfs hl
    rw [List.foldl_cons]
    exact ih (fsWrite fs (g a) (hD a))
      (fsWrite_all pred fs (g a) (hD a) hfs (hl a (List.mem_cons_self a l)))
      (fun b hb => hl b (List.mem_cons_of_mem a hb))

/-- After a successful clone the filesystem holds nothing under the output
directory. -/
lemma clone_fs1_no_output (env : Env) (fs : Fs) (files : List (List String × FileData))
    (hok : envOk env fs = true) :
    ((fsWrite (files.foldl (fun acc f => fsWrite acc (env.cloneDir ++ f.1) f.2) fs)
        (env.tmpDir ++ ["cloned_repo.zip"]) FileData.binary).all
      (fun e => !(env.outputDir.isPrefixOf e.1))) = true := by
  obtain ⟨hfs, h12, h21, htz, _, _⟩ := envOk_spec env fs hok
  have hfs2 : fs.all (fun e => !(env.outputDir.isPrefixOf e.1)) = true := by
    rw [List.all_eq_true] at hfs ⊢
    intro e he
    have h := hfs e he
    simp only [Bool.and_eq_true] at h
    exact h.2
  refine fsWrite_all (fun q => !(env.outputDir.isPrefixOf q)) _ _ _ ?_ ?_
  · exact foldl_fsWrite_all (fun q => !(env.outputDir.isPrefixOf q))
      (fun f => env.cloneDir ++ f.1) (fun f => f.2) files fs hfs2
      (fun f _ => by
        show (!(env.outputDir.isPrefixOf (env.cloneDir ++ f.1))) = true
        rw [not_prefix_append_bool env.outputDir env.cloneDir f.1 h21 h12]
        rfl)
  · show (!(env.outputDir.isPrefixOf (env.tmpDir ++ ["cloned_repo.zip"]))) = true
    rw [htz]
    rfl

/-- A directory that no entry lies under yields an empty archive. -/
lemma zipOf_nil_of_all (fs1 : Fs) (outputDir projDir : List String)
    (hall : fs1.all (fun e => !(outputDir.isPrefixOf e.1)) = true)
    (hpre : outputDir <+: projDir) : zipOf fs1 projDir = [] := by
  have hmem : ∀ e ∈ fs1, (projDir.isPrefixOf e.1 && decide (projDir.length < e.1.length)) = false := by
    intro e he
    have h1 : (!(outputDir.isPrefixOf e.1)) = true := List.all_eq_true.mp hall e he
    have h2 : outputDir.isPrefixOf e.1 = false := by
      cases hx : outputDir.isPrefixOf e.1
      · rfl
      · rw [hx] at h1; exact Bool.noConfusion h1
    cases hp : projDir.isPrefixOf e.1
    · rfl
    · exfalso
      have hp2 : projDir <+: e.1 := prefixBoolIff.mp hp
      have ho : outputDir <+: e.1 := hpre.trans hp2
      rw [prefixBoolIff.mpr ho] at h2
      exact Bool.noConfusion h2
  unfold zipOf fsUnder
  rw [List.filter_eq_nil_iff.mpr (fun e he => by rw [hmem e he]; exact Bool.noConfusion)]
  rfl

/-- The component splitter on slash-free text returns the single group. -/
lemma splitOnSlash_no_slash (cs : List Char) (h : cs.contains '/' = false) :
    splitOnSlash cs = [cs] := by
  induction cs with
  | nil => rfl
  | cons c rest ih =>
    have hc : ('/' == c) = false ∧ rest.contains '/' = false := by
      simp only [List.contains_cons, Bool.or_eq_false_iff] at h
      exact h
    have hcne : ¬ c = '/' := by
      intro hEq
      rw [hEq] at hc
      simpa using hc.1
    unfold splitOnSlash
    rw [ih hc.2]
    simp [hcne]

/-- The splitter never returns the empty list of groups. -/
lemma splitOnSlash_ne_nil (cs : List Char) : splitOnSlash cs ≠ [] := by
  cases cs with
  | nil => simp [splitOnSlash]
  | cons c rest =>
    unfold splitOnSlash
    cases hsplit : splitOnSlash rest with
    | nil => simp
    | cons g gs =>
      by_cases hc : c = '/' <;> simp [hc]

/-- A slash-free string is its own single path component. -/
lemma splitPath_no_slash (n : String) (h : n.data.contains '/' = false) :
    splitPath n = [n] := by
  unfold splitPath
  rw [splitOnSlash_no_slash n.data h]
  rfl

/-- Joining the output directory with a well-formed project name. -/
lemma osPathJoin_good (base : List String) (n : String) (hn : goodProjName n = true) :
    (n = "" ∧ osPathJoin base n = base) ∨
    (goodCompB n = true ∧ osPathJoin base n = base ++ [n]) := by
  by_cases h0 : n = ""
  · left
    refine ⟨h0, ?_⟩
    subst h0
    rfl
  · right
    have hd : (n == "") = false := beq_eq_false_iff_ne.mpr h0
    rw [goodProjName, hd] at hn
    simp only [Bool.false_or, Bool.and_eq_true] at hn
    obtain ⟨hcomp, hslash⟩ := hn
    have hslash2 : n.data.contains '/' = false := by
      cases hx : n.data.contains '/'
      · rfl
      · rw [hx] at hslash; exact Bool.noConfusion hslash
    refine ⟨hcomp, ?_⟩
    unfold osPathJoin
    have hne : n.data.isEmpty = false := by
      cases n with
      | mk d =>
        cases d with
        | nil => exact absurd rfl h0
        | cons c cs => rfl
    rw [if_neg (by simp [hne])]
    have hsw : startsWithSlash n = false := by
      cases n with
      | mk d =>
        cases d with
        | nil => rfl
        | cons c cs =>
          have hcb : ('/' == c) = false := by
            have h' := hslash2
            simp only [List.contains_cons, Bool.or_eq_false_iff] at h'
            exact h'.1
          have hcne : ¬ c = '/' := by
            intro hEq
            rw [hEq] at hcb
            simpa using hcb
          simp [startsWithSlash, hcne]
    rw [if_neg (by simp [hsw])]
    rw [splitPath_no_slash n hslash2]

/-- Resolution is the identity on clean component lists. -/
lemma resolveComps_clean (l : List String) (h : l.all goodCompB = true) :
    ∀ acc, resolveComps acc l = acc ++ l := by
  induction l with
  | nil => intro acc; simp [resolveComps]
  | cons c rest ih =>
    intro acc
    have hc : goodCompB c = true ∧ rest.all goodCompB = true := by
      simpa [List.all_cons, Bool.and_eq_true] using h
    have h1 : ¬ c = "" := by
      intro hEq
      rw [hEq] at hc
      simpa [goodCompB] using hc.1
    have h2 : ¬ c = "." := by
      intro hEq
      rw [hEq] at hc
      simpa [goodCompB] using hc.1
    have h3 : ¬ c = ".." := by
      intro hEq
      rw [hEq] at hc
      simpa [goodCompB] using hc.1
    unfold resolveComps
    rw [if_neg h1, if_neg h2, if_neg h3, ih hc.2 (acc ++ [c])]
    simp

/-- Unpacking of a well-formed generated-mapping key. -/
lemma goodKeyB_spec (k : String) (hk : goodKeyB k = true) :
    (splitPath k).isEmpty = false ∧ (splitPath k).all goodCompB = true ∧
    joinPath (splitPath k) = k := by
  simp only [goodKeyB, Bool.and_eq_true, Bool.not_eq_true'] at hk
  exact ⟨hk.1.1, hk.1.2, beq_iff_eq.mp hk.2⟩

/-- The splitter pushes a leading slash into a leading empty group. -/
lemma splitOnSlash_cons_slash (cs : List Char) :
    splitOnSlash ('/' :: cs) = [] :: splitOnSlash cs := by
  cases hx : splitOnSlash cs with
  | nil => exact absurd hx (splitOnSlash_ne_nil cs)
  | cons g gs => simp [splitOnSlash, hx]

/-- A well-formed key is non-empty and relative. -/
lemma goodKeyB_no_leading_slash (k : String) (hk : goodKeyB k = true) :
    k.data.isEmpty = false ∧ startsWithSlash k = false := by
  obtain ⟨hne, hall, hjoin⟩ := goodKeyB_spec k hk
  constructor
  · cases k with
    | mk d =>
      cases d with
      | nil =>
        exfalso
        have hbad : splitPath (String.mk []) = [""] := rfl
        rw [hbad] at hall
        simpa [goodCompB] using hall
      | cons c cs => rfl
  · cases k with
    | mk d =>
      cases d with
      | nil => rfl
      | cons c cs =>
        by_cases hc : c = '/'
        · exfalso
          subst hc
          have hbad : splitPath (String.mk ('/' :: cs)) = "" :: (splitOnSlash cs).map String.mk := by
            unfold splitPath
            rw [show (String.mk ('/' :: cs)).data = '/' :: cs from rfl, splitOnSlash_cons_slash]
            rfl
          rw [hbad] at hall
          simpa [goodCompB] using hall
        · simp [startsWithSlash, hc]

/-- The written path of a well-formed key under a clean project directory. -/
lemma mvcPath_clean (projDir : List String) (k : String)
    (hdir : projDir.all goodCompB = true) (hk : goodKeyB k = true) :
    mvcPath projDir k = projDir ++ splitPath k := by
  obtain ⟨hne, hsw⟩ := goodKeyB_no_leading_slash k hk
  obtain ⟨_, hall, _⟩ := goodKeyB_spec k hk
  unfold mvcPath osPathJoin
  rw [if_neg (by simp [hne]), if_neg (by simp [hsw])]
  rw [resolveComps_clean (projDir ++ splitPath k)
        (by rw [List.all_append]; simp [hdir, hall]) []]
  rfl

/-- A write at a fresh path appends the new entry. -/
lemma fsWrite_fresh (fs : Fs) (p : List String) (d : FileData)
    (h : ∀ e ∈ fs, e.1 ≠ p) : fsWrite fs p d = fs ++ [(p, d)] := by
  have hany : fs.any (fun e => e.1 == p) = false := by
    cases hx : fs.any (fun e => e.1 == p)
    · rfl
    · exfalso
      rw [List.any_eq_true] at hx
      obtain ⟨e, he, hbe⟩ := hx
      exact h e he (by simpa using hbe)
  simp [fsWrite, hany]

/-- Unpacking of pairwise prefix-freedom at the head. -/
lemma pairwiseNoPrefixB_cons (x : List String) (xs : List (List String))
    (h : pairwiseNoPrefixB (x :: xs) = true) :
    (∀ y ∈ xs, (x.isPrefixOf y) = false ∧ (y.isPrefixOf x) = false) ∧
    pairwiseNoPrefixB xs = true := by
  simp only [pairwiseNoPrefixB, Bool.and_eq_true, List.all_eq_true] at h
  refine ⟨fun y hy => ?_, h.2⟩
  have hxy := h.1 y hy
  simp only [Bool.and_eq_true, Bool.not_eq_true'] at hxy
  exact hxy

/-- Materialising a well-formed mapping into a filesystem with no entry at
any written path appends exactly the written entries, in order. -/
lemma writeMvc_fold (projDir : List String) (hdir : projDir.all goodCompB = true) :
    ∀ (items : List (String × JValue)) (fs1 : Fs),
      items.all (fun kv => goodKeyB kv.1) = true →
      (∀ kv ∈ items, ∀ e ∈ fs1, e.1 ≠ projDir ++ splitPath kv.1) →
      pairwiseNoPrefixB (items.map (fun kv => splitPath kv.1)) = true →
      writeMvcFiles projDir items fs1 =
        fs1 ++ items.map (fun kv => (projDir ++ splitPath kv.1,
          FileData.text (py_write_content kv.2))) := by
  intro items
  induction items with
  | nil => intro fs1 _ _ _; simp [writeMvcFiles]
  | cons kv rest ih =>
    intro fs1 hall hfresh hnp
    have hkv : goodKeyB kv.1 = true ∧ rest.all (fun kv => goodKeyB kv.1) = true := by
      simpa [List.all_cons, Bool.and_eq_true] using hall
    have hstep : fsWrite fs1 (mvcPath projDir kv.1) (FileData.text (py_write_content kv.2))
        = fs1 ++ [(projDir ++ splitPath kv.1, FileData.text (py_write_content kv.2))] := by
      rw [mvcPath_clean projDir kv.1 hdir hkv.1]
      exact fsWrite_fresh fs1 _ _ (fun e he => hfresh kv (List.mem_cons_self _ _) e he)
    have hnp2 := pairwiseNoPrefixB_cons _ _ (by simpa using hnp)
    have hrec := ih (fs1 ++ [(projDir ++ splitPath kv.1, FileData.text (py_write_content kv.2))])
      hkv.2
      (by
        intro kv2 hkv2 e he
        rcases List.mem_append.mp he with he1 | he2
        · exact hfresh kv2 (List.mem_cons_of_mem _ hkv2) e he1
        · have he3 : e = (projDir ++ splitPath kv.1, FileData.text (py_write_content kv.2)) := by
            simpa using he2
          rw [he3]
          intro hEq
          have hsplitEq : splitPath kv.1 = splitPath kv2.1 := by
            have := List.append_cancel_left hEq
            exact this
          have hpf := (hnp2.1 (splitPath kv2.1) (List.mem_map_of_mem _ hkv2)).1
          rw [← hsplitEq] at hpf
          rw [prefixBoolIff.mpr (List.prefix_refl _)] at hpf
          exact Bool.noConfusion hpf)
      hnp2.2
    show List.foldl _ _ (kv :: rest) = _
    rw [List.foldl_cons]
    have hfold : List.foldl (fun acc kv =>
        fsWrite acc (mvcPath projDir kv.1) (FileData.text (py_write_content kv.2)))
        (fsWrite fs1 (mvcPath projDir kv.1) (FileData.text (py_write_content kv.2))) rest
        = writeMvcFiles projDir rest
            (fsWrite fs1 (mvcPath projDir kv.1) (FileData.text (py_write_content kv.2))) := rfl
    rw [hfold, hstep, hrec]
    simp

/-- Archive of a directory populated only by freshly appended entries. -/
lemma zipOf_append_new (fs1 new : Fs) (projDir : List String)
    (h1 : ∀ e ∈ fs1, projDir.isPrefixOf e.1 = false)
    (h2 : ∀ e ∈ new, (projDir.isPrefixOf e.1 && decide (projDir.length < e.1.length)) = true) :
    zipOf (fs1 ++ new) projDir =
      new.map (fun e => (joinPath (e.1.drop projDir.length), fileText e.2)) := by
  unfold zipOf fsUnder
  rw [List.filter_append]
  rw [List.filter_eq_nil_iff.mpr (fun e he => by simp [h1 e he])]
  rw [List.filter_eq_self.mpr h2]
  simp

/-- When the generation response fails to parse, the try-block still
succeeds and produces an empty archive. -/
lemma body_gen_empty (env : Env) (fs : Fs) (url : String)
    (files : List (List String × FileData))
    (hcf : env.cloneFiles = some files)
    (hx : extract_llm_json env.llm.generate = none)
    (hok : envOk env fs = true)
    (hname : goodProjName (derive_project_name url) = true) :
    (process_github_body env fs (.jstr url)).1 =
      Except.ok ([], derive_project_name url) := by
  have hg : ∀ (a : List (String × List FileRecord)) (n : String),
      generate_mvc_with_openai a n env.llm.generate = JValue.jobj [] := by
    intro a n
    unfold generate_mvc_with_openai
    rw [hx]
  simp only [process_github_body, clone_and_zip_repo, hcf]
  rw [hg]
  dsimp only []
  have hall : (fsWrite (files.foldl (fun acc f => fsWrite acc (env.cloneDir ++ f.1) f.2) fs)
      (env.tmpDir ++ ["cloned_repo.zip"]) FileData.binary).all
      (fun e => !(env.outputDir.isPrefixOf e.1)) = true := clone_fs1_no_output env fs files hok
  have hpre : env.outputDir <+: osPathJoin env.outputDir (derive_project_name url) := by
    rcases osPathJoin_good env.outputDir (derive_project_name url) hname with ⟨_, hj⟩ | ⟨_, hj⟩
    · rw [hj]
    · rw [hj]; exact List.prefix_append _ _
  obtain ⟨_, _, _, _, _, houtGood⟩ := envOk_spec env fs hok
  have hdirGood : (osPathJoin env.outputDir (derive_project_name url)).all goodCompB = true := by
    rcases osPathJoin_good env.outputDir (derive_project_name url) hname with ⟨_, hj⟩ | ⟨hco, hj⟩
    · rw [hj]; exact houtGood
    · rw [hj, List.all_append]; simp [houtGood, hco]
  have hres : resolveComps [] (osPathJoin env.outputDir (derive_project_name url))
      = osPathJoin env.outputDir (derive_project_name url) := by
    rw [resolveComps_clean _ hdirGood []]
    rfl
  have hz := zipOf_nil_of_all _ env.outputDir
    (osPathJoin env.outputDir (derive_project_name url)) hall hpre
  simp only [writeMvcFiles, List.foldl_nil]
  rw [hres, hz]

/-- C4.  Whenever the generation response cannot be parsed as JSON,
`generate_mvc_with_openai` returns the empty mapping instead of propagating
the error, and a request reaching the generation stage still completes, its
streamed archive containing no generated files. -/
theorem generate_malformed_returns_empty (response : String)
    (h : extract_llm_json response = none) :
    (∀ (analysis_data : List (String × List FileRecord)) (project_name : String),
       generate_mvc_with_openai analysis_data project_name response = JValue.jobj []) ∧
    (∀ (env : Env) (fs : Fs) (fields : List (String × JValue)) (url : String)
       (files : List (List String × FileData)),
       env.llm.generate = response →
       jlookup fields "githubUrl" = some (JValue.jstr url) →
       url ≠ "" →
       env.cloneFiles = some files →
       envOk env fs = true →
       goodProjName (derive_project_name url) = true →
       (process_github env fs (.jobj fields)).resp =
         streaming_zip_response [] (derive_project_name url)) := by
  constructor
  · intro a n
    unfold generate_mvc_with_openai
    rw [h]
  · intro env fs fields url files hresp hurl hne hcf hok hname
    have hx : extract_llm_json env.llm.generate = none := by rw [hresp]; exact h
    have hbody := body_gen_empty env fs url files hcf hx hok hname
    have hdata : url.data.isEmpty = false := by
      cases url with
      | mk d =>
        cases d with
        | nil => exact absurd rfl hne
        | cons c cs => rfl
    have ht : jvalTruthy (JValue.jstr url) = true := by simp [jvalTruthy, hdata]
    rcases hb : process_github_body env fs (JValue.jstr url) with ⟨res, fs2, fx⟩
    rw [hb] at hbody
    dsimp only [] at hbody
    subst hbody
    simp [process_github, hurl, ht, hb]

/-- A request environment whose generation response is malformed. -/
def envD : Env :=
  { llm := { classify := fun _ _ => "x", generate := "oops" },
    cloneFiles := some [],
    cloneDir := ["tmp", "cloned"],
    outputDir := ["tmp", "outd"],
    tmpDir := ["tmp"],
    downloadsDir := ["home", "dl"] }

/-- Witness for C4 at a concrete malformed generation response. -/
theorem generate_malformed_returns_empty_witness :
    extract_llm_json "oops" = none ∧
    generate_mvc_with_openai initStructure "r" "oops" = JValue.jobj [] ∧
    (process_github envD [] (.jobj [("githubUrl", JValue.jstr "https://h/r.git")])).resp =
      streaming_zip_response [] (derive_project_name "https://h/r.git") :=
  ⟨rfl,
   (generate_malformed_returns_empty "oops" rfl).1 initStructure "r",
   (generate_malformed_returns_empty "oops" rfl).2 envD []
     [("githubUrl", JValue.jstr "https://h/r.git")] "https://h/r.git" [] rfl rfl
     (by decide) rfl (by decide) (by decide)⟩

/-- When the generation response parses to a well-formed mapping, the
try-block succeeds and the archive holds exactly the mapping entries. -/
lemma body_gen_items (env : Env) (fs : Fs) (url : String)
    (files : List (List String × FileData)) (items : List (String × JValue))
    (hcf : env.cloneFiles = some files)
    (hx : extract_llm_json env.llm.generate = some (JValue.jobj items))
    (hok : envOk env fs = true)
    (hname : goodProjName (derive_project_name url) = true)
    (hkeys : mvcKeysOk items = true) :
    (process_github_body env fs (.jstr url)).1 =
      Except.ok (items.map (fun kv => (kv.1, jstrVal kv.2)), derive_project_name url) := by
  have hg : ∀ (a : List (String × List FileRecord)) (n : String),
      generate_mvc_with_openai a n env.llm.generate = JValue.jobj items := by
    intro a n
    unfold generate_mvc_with_openai
    rw [hx]
  simp only [process_github_body, clone_and_zip_repo, hcf]
  rw [hg]
  dsimp only []
  have hall : (fsWrite (files.foldl (fun acc f => fsWrite acc (env.cloneDir ++ f.1) f.2) fs)
      (env.tmpDir ++ ["cloned_repo.zip"]) FileData.binary).all
      (fun e => !(env.outputDir.isPrefixOf e.1)) = true := clone_fs1_no_output env fs files hok
  obtain ⟨_, _, _, _, _, houtGood⟩ := envOk_spec env fs hok
  simp only [mvcKeysOk, Bool.and_eq_true] at hkeys
  obtain ⟨hkv, hnp⟩ := hkeys
  have hkeysGood : items.all (fun kv => goodKeyB kv.1) = true := by
    rw [List.all_eq_true] at hkv ⊢
    intro kv hkvm
    have hthis := hkv kv hkvm
    simp only [Bool.and_eq_true] at hthis
    exact hthis.1
  have hdirCases := osPathJoin_good env.outputDir (derive_project_name url) hname
  have hdirGood : (osPathJoin env.outputDir (derive_project_name url)).all goodCompB = true := by
    rcases hdirCases with ⟨_, hj⟩ | ⟨hco, hj⟩
    · rw [hj]; exact houtGood
    · rw [hj, List.all_append]; simp [houtGood, hco]
  have hpre : env.outputDir <+: osPathJoin env.outputDir (derive_project_name url) := by
    rcases hdirCases with ⟨_, hj⟩ | ⟨_, hj⟩
    · rw [hj]
    · rw [hj]; exact List.prefix_append _ _
  have hres : resolveComps [] (osPathJoin env.outputDir (derive_project_name url))
      = osPathJoin env.outputDir (derive_project_name url) := by
    rw [resolveComps_clean _ hdirGood []]
    rfl
  rw [hres]
  set fs1 := fsWrite (files.foldl (fun acc f => fsWrite acc (env.cloneDir ++ f.1) f.2) fs)
      (env.tmpDir ++ ["cloned_repo.zip"]) FileData.binary with hfs1
  set projDir := osPathJoin env.outputDir (derive_project_name url) with hpd
  have hfresh : ∀ kv ∈ items, ∀ e ∈ fs1, e.1 ≠ projDir ++ splitPath kv.1 := by
    intro kv hkvm e he hEq
    have h1 : (!(env.outputDir.isPrefixOf e.1)) = true := List.all_eq_true.mp hall e he
    have h2 : env.outputDir <+: e.1 := by
      rw [hEq]
      exact hpre.trans (List.prefix_append _ _)
    rw [prefixBoolIff.mpr h2] at h1
    exact Bool.noConfusion h1
  have hfold := writeMvc_fold projDir hdirGood items fs1 hkeysGood hfresh hnp
  rw [hfold]
  have h1 : ∀ e ∈ fs1, projDir.isPrefixOf e.1 = false := by
    intro e he
    have hget : (!(env.outputDir.isPrefixOf e.1)) = true := List.all_eq_true.mp hall e he
    cases hp : projDir.isPrefixOf e.1
    · rfl
    · exfalso
      have hp2 : projDir <+: e.1 := prefixBoolIff.mp hp
      rw [prefixBoolIff.mpr (hpre.trans hp2)] at hget
      exact Bool.noConfusion hget
  have h2 : ∀ e ∈ items.map (fun kv => (projDir ++ splitPath kv.1,
      FileData.text (py_write_content kv.2))),
      (projDir.isPrefixOf e.1 && decide (projDir.length < e.1.length)) = true := by
    intro e he
    rw [List.mem_map] at he
    obtain ⟨kv, hkvm, hkve⟩ := he
    rw [← hkve]
    have hkg := List.all_eq_true.mp hkeysGood kv hkvm
    obtain ⟨hkne, _, _⟩ := goodKeyB_spec kv.1 hkg
    have hpos : 0 < (splitPath kv.1).length := by
      cases hsx : splitPath kv.1 with
      | nil => rw [hsx] at hkne; simp at hkne
      | cons a l => simp
    have hlen : projDir.length < (projDir ++ splitPath kv.1).length := by
      rw [List.length_append]
      omega
    rw [prefixBoolIff.mpr (List.prefix_append _ _)]
    simpa using hpos
  rw [zipOf_append_new fs1 _ projDir h1 h2]
  rw [List.map_map]
  have hmapeq : ∀ kv ∈ items,
      ((fun e : List String × FileData => (joinPath (e.1.drop projDir.length), fileText e.2)) ∘
        (fun kv : String × JValue => (projDir ++ splitPath kv.1,
          FileData.text (py_write_content kv.2)))) kv
        = (kv.1, jstrVal kv.2) := by
    intro kv hkvm
    have hkv2 := List.all_eq_true.mp hkv kv hkvm
    simp only [Bool.and_eq_true] at hkv2
    obtain ⟨hkg, hjs⟩ := hkv2
    obtain ⟨_, _, hjoin⟩ := goodKeyB_spec kv.1 hkg
    simp only [Function.comp]
    rw [List.drop_left]
    rw [hjoin]
    have hcontent : py_write_content kv.2 = jstrVal kv.2 := by
      rcases hv : kv.2 with _ | b | lex | s2 | el | fl
      · rw [hv] at hjs; simp [isJStrB] at hjs
      · rw [hv] at hjs; simp [isJStrB] at hjs
      · rw [hv] at hjs; simp [isJStrB] at hjs
      · rfl
      · rw [hv] at hjs; simp [isJStrB] at hjs
      · rw [hv] at hjs; simp [isJStrB] at hjs
    rw [show fileText (FileData.text (py_write_content kv.2)) = py_write_content kv.2 from rfl,
        hcontent]
  rw [List.map_congr_left hmapeq]

/-- C1 (amended).  When every key of the generated mapping is a normalised
relative path, the keys are pairwise prefix-free and every value is a
string, the streamed archive of a successful request contains exactly the
mapping: every key as an entry carrying its value, and nothing else. -/
theorem process_github_archive_matches_mapping (env : Env) (fs : Fs)
    (fields : List (String × JValue)) (url : String)
    (files : List (List String × FileData)) (items : List (String × JValue))
    (hurl : jlookup fields "githubUrl" = some (JValue.jstr url))
    (hne : url ≠ "")
    (hcf : env.cloneFiles = some files)
    (hok : envOk env fs = true)
    (hname : goodProjName (derive_project_name url) = true)
    (hgen : extract_llm_json env.llm.generate = some (JValue.jobj items))
    (hkeys : mvcKeysOk items = true) :
    (process_github env fs (.jobj fields)).resp =
      streaming_zip_response (items.map (fun kv => (kv.1, jstrVal kv.2)))
        (derive_project_name url) := by
  have hbody := body_gen_items env fs url files items hcf hgen hok hname hkeys
  have hdata : url.data.isEmpty = false := by
    cases url with
    | mk d =>
      cases d with
      | nil => exact absurd rfl hne
      | cons c cs => rfl
  have ht : jvalTruthy (JValue.jstr url) = true := by simp [jvalTruthy, hdata]
  rcases hb : process_github_body env fs (JValue.jstr url) with ⟨res, fs2, fx⟩
  rw [hb] at hbody
  dsimp only [] at hbody
  subst hbody
  simp [process_github, hurl, ht, hb]

/-- A request environment whose generated mapping uses a parent-escaping
key. -/
def envC : Env :=
  { llm := { classify := fun _ _ => "x", generate := "\x7b\"../x\": \"y\"\x7d" },
    cloneFiles := some [],
    cloneDir := ["tmp", "clonec"],
    outputDir := ["tmp", "outc"],
    tmpDir := ["tmp"],
    downloadsDir := ["home", "dl"] }

/-- Counterexample to C1 as stated: the generation step produces the mapping
with the single key `../x`, the request succeeds, yet the streamed archive
is empty — the key escapes the project directory when materialised, so it
does not appear as an entry of the archive. -/
theorem process_github_escaping_key_cex :
    generate_mvc_with_openai initStructure "repo" envC.llm.generate =
      JValue.jobj [("../x", JValue.jstr "y")] ∧
    (process_github envC [] bodyA).resp =
      Response.zip [] "application/zip" "attachment; filename=repo_mvc_project.zip" :=
  ⟨rfl, rfl⟩

/-- A request environment whose generated mapping is well formed with two
files. -/
def llmE : LLMEnv :=
  { classify := fun _ _ => "x",
    generate := "\x7b\"Program.cs\": \"code\", \"Views/Home/Index.cshtml\": \"view\"\x7d" }

/-- A request environment carrying `llmE`, whose clone succeeds. -/
def envE : Env :=
  { llm := llmE,
    cloneFiles := some [(["index.asp"], FileData.text "hello")],
    cloneDir := ["tmp", "clonee"],
    outputDir := ["tmp", "oute"],
    tmpDir := ["tmp"],
    downloadsDir := ["home", "dl"] }

/-- Witness for C1 (amended) at a concrete two-file mapping. -/
theorem process_github_archive_matches_mapping_witness :
    envOk envE [] = true ∧
    mvcKeysOk [("Program.cs", JValue.jstr "code"),
      ("Views/Home/Index.cshtml", JValue.jstr "view")] = true ∧
    extract_llm_json envE.llm.generate =
      some (JValue.jobj [("Program.cs", JValue.jstr "code"),
        ("Views/Home/Index.cshtml", JValue.jstr "view")]) ∧
    (process_github envE [] bodyA).resp =
      streaming_zip_response [("Program.cs", "code"), ("Views/Home/Index.cshtml", "view")]
        (derive_project_name "https://h/repo.git") :=
  ⟨by decide, by decide, rfl,
   process_github_archive_matches_mapping envE []
     [("githubUrl", JValue.jstr "https://h/repo.git")] "https://h/repo.git"
     [(["index.asp"], FileData.text "hello")]
     [("Program.cs", JValue.jstr "code"), ("Views/Home/Index.cshtml", JValue.jstr "view")]
     rfl (by decide) rfl (by decide) (by decide) rfl (by decide)⟩

/-- A request environment with a fully well-formed one-file mapping, used
with a clone URL whose last segment is dot-dot. -/
def envF : Env :=
  { llm := { classify := fun _ _ => "x", generate := "\x7b\"Program.cs\": \"code\"\x7d" },
    cloneFiles := some [(["index.asp"], FileData.text "hello")],
    cloneDir := ["tmp", "clonef"],
    outputDir := ["tmp", "outf"],
    tmpDir := ["tmp"],
    downloadsDir := ["home", "dl"] }

/-- Necessity of the project-name condition in the amended C1: when the
URL-derived project name is dot-dot, the zip stage walks the resolved
parent of the output directory, so a successful request with a fully
well-formed, prefix-free, string-valued mapping returns an archive holding
the clone tree and the intermediate `cloned_repo.zip` next to the generated
file — extra entries beyond the mapping. -/
theorem process_github_dotdot_name_extra_entries :
    derive_project_name "https://h/.." = ".." ∧
    mvcKeysOk [("Program.cs", JValue.jstr "code")] = true ∧
    (process_github envF [] (.jobj [("githubUrl", JValue.jstr "https://h/..")])).resp =
      Response.zip
        [("clonef/index.asp", "hello"), ("cloned_repo.zip", ""), ("Program.cs", "code")]
        "application/zip" "attachment; filename=.._mvc_project.zip" :=
  ⟨rfl, by decide, rfl⟩
